import Mathlib

/-! MNIST CNN INT8 harness (`cnn_mnist_atv.c`): quantizer, argmax, pipeline and command loop.

Shallow embedding of `src/cnn_mnist_atv.c`.

Conventions of the embedding:
* A finite C `float` is the rational number it denotes. Every float operation of the
  source (`/`, `*`, the conversion `(float)`) is the exact operation followed by
  `f32_round`, IEEE 754 binary32 round-to-nearest-even with subnormals. Infinities and
  NaN are not values of the model: a result beyond the largest finite binary32 stays the
  (huge) rational it rounds to.
* C `int` values are `Int`. `long` has `long_bits` bits, fixed by the C implementation
  (`Libm`); the sum in `long` is taken modulo `2 ^ long_bits`, and the result of
  `lroundf` when the rounded value is not representable in `long`, which the C standard
  leaves unspecified, is whatever the implementation `Libm` returns. The narrowing cast
  `(int8_t)` is the explicit wrap `toInt8`.
* Buffers are lists; `in[i] = q` is `List.set`, `v[i]` is `List.getD`.
* Every `printf`, `sleep_ms`, `tight_loop_contents` and `tflm_invoke` call appends one
  `Effect` to the trace of the `World`.
-/

namespace CnnMnist

/-! ## Binary32 arithmetic -/

/-- Nearest integer, a tie going to the even neighbour. -/
def round_half_even (t : ℚ) : Int :=
  if t - ⌊t⌋ < 1 / 2 then ⌊t⌋
  else if 1 / 2 < t - ⌊t⌋ then ⌊t⌋ + 1
  else if ⌊t⌋ % 2 = 0 then ⌊t⌋ else ⌊t⌋ + 1

/-- Exponent `e` of the binary32 grid at `q`: `2^e ≤ |q| < 2^(e+1)` for a normal value,
and `-126` for everything smaller (subnormals). The grid spacing is `2^(e - 23)`. -/
def f32_exponent (q : ℚ) : Int :=
  max (Int.log 2 |q|) (-126)

/-- The binary32 value nearest to `q`, ties to even: what a float operation of the source
returns when its exact result is `q`. -/
def f32_round (q : ℚ) : ℚ :=
  (round_half_even (q / 2 ^ (f32_exponent q - 23)) : ℚ) * 2 ^ (f32_exponent q - 23)

/-- The conversion `(float)n` of an integer. -/
def i2f (n : Int) : ℚ :=
  f32_round n

/-! ## The C implementation: `long` and `lroundf` -/

/-- What the C implementation fixes and the source does not: the width of `long` and the
value `lroundf` returns when the rounded value is not representable in `long`
(unspecified by the C standard). -/
structure Libm where
  long_bits : Nat
  lroundf_unrepresentable : ℚ → Int

/-- The largest `long`. -/
def LONG_MAX (L : Libm) : Int :=
  2 ^ (L.long_bits - 1) - 1

/-- The smallest `long`. -/
def LONG_MIN (L : Libm) : Int :=
  -(2 ^ (L.long_bits - 1))

/-- Whether an integer is representable in `long`. -/
def fits_long (L : Libm) (n : Int) : Prop :=
  LONG_MIN L ≤ n ∧ n ≤ LONG_MAX L

instance (L : Libm) (n : Int) : Decidable (fits_long L n) :=
  inferInstanceAs (Decidable (LONG_MIN L ≤ n ∧ n ≤ LONG_MAX L))

/-- Reduction of an integer into `long`, modulo `2 ^ long_bits`. -/
def wrap_long (L : Libm) (n : Int) : Int :=
  (n + 2 ^ (L.long_bits - 1)) % 2 ^ L.long_bits - 2 ^ (L.long_bits - 1)

/-- An implementation with a 64-bit `long` whose `lroundf` returns `LONG_MIN` for an
unrepresentable result (the "integer indefinite" value of the x86-64 conversion). -/
def libm_lp64 : Libm :=
  { long_bits := 64, lroundf_unrepresentable := fun _ => -(2 ^ 63) }

/-- An implementation with a 32-bit `long` whose `lroundf` saturates for an
unrepresentable result, as a saturating float-to-int conversion does. -/
def libm_ilp32 : Libm :=
  { long_bits := 32,
    lroundf_unrepresentable := fun x => if 0 ≤ x then 2 ^ 31 - 1 else -(2 ^ 31) }

/-! ## Numeric helpers -/

section Quantizer

variable {α : Type} [LinearOrderedField α] [FloorRing α]

/-- The value the C library function `lroundf` denotes: the nearest integer, halfway
cases rounded away from zero. -/
def lround_exact (x : α) : Int :=
  if 0 ≤ x then ⌊x + 1 / 2⌋ else -⌊-x + 1 / 2⌋

end Quantizer

/-- C library `lroundf`: `lround_exact x` when that is representable in `long`, and the
implementation's value, as a `long`, otherwise. -/
def lroundf (L : Libm) (x : ℚ) : Int :=
  if fits_long L (lround_exact x) then lround_exact x
  else wrap_long L (L.lroundf_unrepresentable x)

/-- The cast `(int8_t)q`: reduction modulo 2^8 into the signed range. -/
def toInt8 (q : Int) : Int :=
  (q + 128) % 256 - 128

/-- `quantize_f32_to_i8` (lines 30-35): the float quotient `x / scale`, `lroundf`, the sum
with `zp` in `long`, the two clamps and the cast. -/
def quantize_f32_to_i8 (L : Libm) (x scale : ℚ) (zp : Int) : Int :=
  let q : Int := wrap_long L (lroundf L (f32_round (x / scale)) + zp)
  let q : Int := if q < -128 then -128 else q
  let q : Int := if q > 127 then 127 else q
  toInt8 q

/-- The dequantisation expression of line 98, `(float)(q - out_zp) * out_scale`: an
integer difference, its conversion to float and a float product. -/
def dequant_score (q out_zp : Int) (out_scale : ℚ) : ℚ :=
  f32_round (i2f (q - out_zp) * out_scale)

/-! ## argmax -/

/-- The `for` loop of `argmax_i8` (lines 24-26): `fuel` iterations remain, `i` is the
loop counter, `best`/`bestv` the running best index and value. -/
def argmax_loop (v : List Int) : Nat → Nat → Nat → Int → Nat
  | 0, _, best, _ => best
  | fuel + 1, i, best, bestv =>
    if v.getD i 0 > bestv then argmax_loop v fuel (i + 1) i (v.getD i 0)
    else argmax_loop v fuel (i + 1) best bestv

/-- `argmax_i8` (lines 21-28): the loop runs for `i = 1 .. n-1`. -/
def argmax_i8 (v : List Int) (n : Nat) : Nat :=
  argmax_loop v (n - 1) 1 0 (v.getD 0 0)

/-! ## Effects, engine memory and platform -/

/-- One observable call made by the program: a `printf` (constant text, or a format
with its arguments), `tflm_invoke` (with the contents of the input tensor at the call),
`sleep_ms`, `tight_loop_contents`, `stdio_init_all`. -/
inductive Effect where
  | printf (text : String)
  | printf_c (c : Char)
  | printf_invoke_falhou (rc : Int)
  | printf_label_esperado (expected_label : Int) (pred : Int)
  | printf_score (c : Int) (q : Int) (y : ℚ)
  | printf_tflm_init_falhou (rc : Int)
  | printf_arena_usada (bytes : Int)
  | printf_input_output_bytes (in_bytes : Int) (out_bytes : Int)
  | printf_in_scale_zp (scale : ℚ) (zp : Int)
  | printf_out_scale_zp (scale : ℚ) (zp : Int)
  | printf_imagem_atual (idx : Int) (label : Int)
  | printf_teste_idx (i : Int) (label : Int)
  | printf_rodando_idx (idx : Int) (label : Int)
  | printf_comando_desconhecido (c : Int)
  | tflm_invoke (input : List Int)
  | sleep_ms (ms : Nat)
  | tight_loop_contents
  | stdio_init_all
  deriving DecidableEq

/-- Memory owned by the engine behind `tflm_wrapper.h`: the input tensor (`in`), the
output tensor (`out`) and the rest of the engine state. -/
structure Tflm (ε : Type) where
  input : List Int
  output : List Int
  arena : ε

/-- Program state: engine memory and the trace of effects so far. -/
structure World (ε : Type) where
  mem : Tflm ε
  trace : List Effect

/-- Append one effect to the trace. -/
def World.emit {ε : Type} (w : World ε) (e : Effect) : World ε :=
  { w with trace := w.trace ++ [e] }

/-- What the program uses and `src/` does not define: the C implementation `libm`,
the SDK constant `PICO_ERROR_TIMEOUT`, the sample tables of `mnist_samples.h` and the engine functions of
`tflm_wrapper.h`. The pointer functions return whether the pointer is non-null together
with the byte count they store through their argument. -/
structure Platform (ε : Type) where
  libm : Libm
  PICO_ERROR_TIMEOUT : Int
  mnist_images : List (List Nat)
  mnist_labels : List Int
  tflm_init : Tflm ε → Int × Tflm ε
  tflm_arena_used_bytes : Tflm ε → Int
  tflm_input_ptr : Tflm ε → Bool × Int
  tflm_output_ptr : Tflm ε → Bool × Int
  tflm_input_scale : Tflm ε → ℚ
  tflm_input_zero_point : Tflm ε → Int
  tflm_output_scale : Tflm ε → ℚ
  tflm_output_zero_point : Tflm ε → Int
  tflm_invoke : Tflm ε → Int × Tflm ε

/-! ## print_help and print_image_ascii -/

/-- `print_help` (lines 37-44). -/
def print_help {ε : Type} (w : World ε) : World ε :=
  { w with trace := w.trace ++
      [ .printf "\nComandos:\n",
        .printf "  h         -> ajuda\n",
        .printf "  0..9      -> roda inferencia na imagem do digito escolhido\n",
        .printf "  a         -> teste automatico (0..9)\n",
        .printf "  p         -> imprime a imagem atual (ASCII)\n",
        .printf "\n" ] }

/-- The glyph selection of `print_image_ascii` (lines 51-55). -/
def glyph (v : Nat) : Char :=
  if v > 200 then '#'
  else if v > 120 then '*'
  else if v > 60 then ':'
  else if v > 20 then '.'
  else ' '

/-- Inner loop of `print_image_ascii` (lines 49-57): `fuel` columns remain from `x`. -/
def print_row (img : List Nat) (y : Nat) : Nat → Nat → List Effect
  | 0, _ => []
  | fuel + 1, x => .printf_c (glyph (img.getD (y * 28 + x) 0)) :: print_row img y fuel (x + 1)

/-- Outer loop of `print_image_ascii` (lines 48-59): `fuel` rows remain from `y`. -/
def print_rows (img : List Nat) : Nat → Nat → List Effect
  | 0, _ => []
  | fuel + 1, y => print_row img y 28 0 ++ .printf "\n" :: print_rows img fuel (y + 1)

/-- `print_image_ascii` (lines 46-60). -/
def print_image_ascii {ε : Type} (img : List Nat) (w : World ε) : World ε :=
  { w with trace := w.trace ++ print_rows img 28 0 }

/-! ## run_inference_on_image -/

/-- The normalised pixel of line 81, `(float)v / 255.0f`. -/
def pixel_f32 (v : Nat) : ℚ :=
  f32_round (i2f v / 255)

/-- Pre-processing loop (lines 80-83): `fuel` pixels remain from index `i`; `buf` is the
input tensor. -/
def quantize_loop (L : Libm) (img : List Nat) (in_scale : ℚ) (in_zp : Int) :
    Nat → Nat → List Int → List Int
  | 0, _, buf => buf
  | fuel + 1, i, buf =>
    quantize_loop L img in_scale in_zp fuel (i + 1)
      (buf.set i (quantize_f32_to_i8 L (pixel_f32 (img.getD i 0)) in_scale in_zp))

/-- The whole pre-processing `for` (lines 80-83) acting on the engine memory: `i` runs
over `0 .. 28*28 - 1` and only the input tensor is written. -/
def preprocess {ε : Type} (L : Libm) (img : List Nat) (in_scale : ℚ) (in_zp : Int)
    (m : Tflm ε) : Tflm ε :=
  { m with input := quantize_loop L img in_scale in_zp (28 * 28) 0 m.input }

/-- Score loop (lines 96-100): `fuel` classes remain from class `c`. -/
def score_loop (out : List Int) (out_zp : Int) (out_scale : ℚ) : Nat → Nat → List Effect
  | 0, _ => []
  | fuel + 1, c =>
    .printf_score c (out.getD c 0) (dequant_score (out.getD c 0) out_zp out_scale)
      :: score_loop out out_zp out_scale fuel (c + 1)

/-- `run_inference_on_image` (lines 62-101). The pointers `in` and `out` are the
engine tensors `w.mem.input` and `w.mem.output`, as `main` passes them. -/
def run_inference_on_image {ε : Type} (P : Platform ε) (img_u8_28x28 : List Nat)
    (expected_label : Int) (in_bytes out_bytes : Int) (in_scale : ℚ) (in_zp : Int)
    (out_scale : ℚ) (out_zp : Int) (w : World ε) : World ε :=
  if in_bytes < 28 * 28 then
    w.emit (.printf "Erro: input menor que 784 bytes\n")
  else if out_bytes < 10 then
    w.emit (.printf "Erro: output menor que 10 bytes\n")
  else
    let mem1 : Tflm ε := preprocess P.libm img_u8_28x28 in_scale in_zp w.mem
    let w1 : World ε := { mem := mem1, trace := w.trace ++ [.tflm_invoke mem1.input] }
    let rc : Int := (P.tflm_invoke mem1).1
    let w2 : World ε := { w1 with mem := (P.tflm_invoke mem1).2 }
    if rc ≠ 0 then
      w2.emit (.printf_invoke_falhou rc)
    else
      let pred : Nat := argmax_i8 w2.mem.output 10
      let w3 : World ε := w2.emit (.printf_label_esperado expected_label pred)
      { w3 with trace := w3.trace ++ score_loop w3.mem.output out_zp out_scale 10 0 }

/-! ## main -/

/-- Locals of `main` that live across the command loop, with the world. -/
structure MainState (ε : Type) where
  world : World ε
  in_bytes : Int
  out_bytes : Int
  in_scale : ℚ
  in_zp : Int
  out_scale : ℚ
  out_zp : Int
  current_idx : Int

/-- Start-up of `main` (lines 104-141). `Except.error w` is the program spinning in
`while (1) tight_loop_contents();` with world `w`; `Except.ok s` enters the command loop. -/
def main_setup {ε : Type} (P : Platform ε) (w : World ε) : Except (World ε) (MainState ε) :=
  let w : World ε := w.emit .stdio_init_all
  let w : World ε := w.emit (.sleep_ms 1500)
  let w : World ε :=
    w.emit (.printf "\n=== MNIST CNN INT8 no Pico W (main em C) - Interativo ===\n")
  let rc : Int := (P.tflm_init w.mem).1
  let w : World ε := { w with mem := (P.tflm_init w.mem).2 }
  if rc ≠ 0 then
    .error (w.emit (.printf_tflm_init_falhou rc))
  else
    let w : World ε := w.emit (.printf_arena_usada (P.tflm_arena_used_bytes w.mem))
    let in_bytes : Int := (P.tflm_input_ptr w.mem).2
    let out_bytes : Int := (P.tflm_output_ptr w.mem).2
    if (P.tflm_input_ptr w.mem).1 = false ∨ (P.tflm_output_ptr w.mem).1 = false then
      .error (w.emit (.printf "Erro: ponteiro input/output nulo\n"))
    else
      let in_scale : ℚ := P.tflm_input_scale w.mem
      let in_zp : Int := P.tflm_input_zero_point w.mem
      let out_scale : ℚ := P.tflm_output_scale w.mem
      let out_zp : Int := P.tflm_output_zero_point w.mem
      let w : World ε := w.emit (.printf_input_output_bytes in_bytes out_bytes)
      let w : World ε := w.emit (.printf_in_scale_zp in_scale in_zp)
      let w : World ε := w.emit (.printf_out_scale_zp out_scale out_zp)
      let current_idx : Int := 7
      let current_idx : Int := if current_idx < 0 ∨ current_idx > 9 then 0 else current_idx
      let w : World ε := print_help w
      let w : World ε := w.emit
        (.printf "Pronto. Digite 0..9 para testar. Exemplo: digite 7 e pressione Enter.\n")
      .ok { world := w, in_bytes := in_bytes, out_bytes := out_bytes, in_scale := in_scale,
            in_zp := in_zp, out_scale := out_scale, out_zp := out_zp,
            current_idx := current_idx }

/-- Code of a character constant as the `int` the C comparison sees. -/
def ord (c : Char) : Int :=
  c.toNat

/-- The call `run_inference_on_image(mnist_images[i], mnist_labels[i], in, in_bytes, ...)`
made at lines 161-165 and 171-175. -/
def run_sample {ε : Type} (P : Platform ε) (s : MainState ε) (i : Int) (w : World ε) : World ε :=
  run_inference_on_image P (P.mnist_images.getD i.toNat []) (P.mnist_labels.getD i.toNat 0)
    s.in_bytes s.out_bytes s.in_scale s.in_zp s.out_scale s.out_zp w

/-- The `for` loop of the `a` command (lines 159-167): `fuel` samples remain from `i`. -/
def auto_loop {ε : Type} (P : Platform ε) (s : MainState ε) : Nat → Nat → World ε → World ε
  | 0, _, w => w
  | fuel + 1, i, w =>
    let w : World ε := w.emit (.printf_teste_idx i (P.mnist_labels.getD i 0))
    let w : World ε := run_sample P s i w
    let w : World ε := w.emit (.sleep_ms 200)
    auto_loop P s fuel (i + 1) w

/-- One pass through the body of the `for` of the `a` command (lines 160-166) for index
`i`: the "Teste" line, the pipeline run on `mnist_images[i]` with `mnist_labels[i]`, and
`sleep_ms(200)`. -/
def auto_iteration {ε : Type} (P : Platform ε) (s : MainState ε) (w : World ε) (i : Nat) :
    World ε :=
  (run_inference_on_image P (P.mnist_images.getD i []) (P.mnist_labels.getD i 0)
    s.in_bytes s.out_bytes s.in_scale s.in_zp s.out_scale s.out_zp
    (w.emit (.printf_teste_idx i (P.mnist_labels.getD i 0)))).emit (.sleep_ms 200)

/-- Branch `h`/`H` (line 153). -/
def cmd_help {ε : Type} (s : MainState ε) : MainState ε :=
  { s with world := print_help s.world }

/-- Branch `p`/`P` (lines 155-156). -/
def cmd_print {ε : Type} (P : Platform ε) (s : MainState ε) : MainState ε :=
  let w : World ε :=
    s.world.emit (.printf_imagem_atual s.current_idx (P.mnist_labels.getD s.current_idx.toNat 0))
  { s with world := print_image_ascii (P.mnist_images.getD s.current_idx.toNat []) w }

/-- Branch `a`/`A` (lines 158-167). -/
def cmd_auto {ε : Type} (P : Platform ε) (s : MainState ε) : MainState ε :=
  { s with world := auto_loop P s 10 0 (s.world.emit (.printf "\nTeste automatico 0..9\n")) }

/-- Branch for a digit (lines 169-175). -/
def cmd_digit {ε : Type} (P : Platform ε) (ch : Int) (s : MainState ε) : MainState ε :=
  let s : MainState ε := { s with current_idx := ch - ord '0' }
  let w : World ε :=
    s.world.emit (.printf_rodando_idx s.current_idx (P.mnist_labels.getD s.current_idx.toNat 0))
  { s with world := run_sample P s s.current_idx w }

/-- Branch `else` (line 177): `(char)ch` printed with `%c` is the byte `ch mod 256`. -/
def cmd_unknown {ε : Type} (ch : Int) (s : MainState ε) : MainState ε :=
  { s with world := s.world.emit (.printf_comando_desconhecido (ch % 256)) }

/-- One iteration of `while (true)` (lines 144-178); `ch` is what
`getchar_timeout_us(0)` returned. -/
def main_loop_body {ε : Type} (P : Platform ε) (ch : Int) (s : MainState ε) : MainState ε :=
  if ch = P.PICO_ERROR_TIMEOUT then
    { s with world := s.world.emit .tight_loop_contents }
  else if ch = ord '\r' ∨ ch = ord '\n' then s
  else if ch = ord 'h' ∨ ch = ord 'H' then cmd_help s
  else if ch = ord 'p' ∨ ch = ord 'P' then cmd_print P s
  else if ch = ord 'a' ∨ ch = ord 'A' then cmd_auto P s
  else if ch ≥ ord '0' ∧ ch ≤ ord '9' then cmd_digit P ch s
  else cmd_unknown ch s

/-- The command loop run on the successive results of `getchar_timeout_us(0)`. -/
def main_loop {ε : Type} (P : Platform ε) : List Int → MainState ε → MainState ε
  | [], s => s
  | ch :: rest, s => main_loop P rest (main_loop_body P ch s)

/-! ## Spec-side description of the command table (written from the specification text) -/

/-- The documented actions of the command table (spec section 4.4); the timeout row is
not a byte and has no action here. -/
inductive Action where
  | ignore
  | help
  | render
  | run_all
  | select_run (d : Nat)
  | unknown (b : Nat)
  deriving DecidableEq

/-- The command table read as a function of the received byte: carriage return and
line feed are ignored, letters are taken case-insensitively, a digit selects its
sample, anything else is unknown. -/
def documented_action (b : Nat) : Action :=
  if b = 13 ∨ b = 10 then .ignore
  else if (Char.ofNat b).toLower = 'h' then .help
  else if (Char.ofNat b).toLower = 'p' then .render
  else if (Char.ofNat b).toLower = 'a' then .run_all
  else if (Char.ofNat b).isDigit then .select_run (b - 48)
  else .unknown b

/-- The help text of the `h` command. -/
def help_text : List Effect :=
  [ .printf "\nComandos:\n",
    .printf "  h         -> ajuda\n",
    .printf "  0..9      -> roda inferencia na imagem do digito escolhido\n",
    .printf "  a         -> teste automatico (0..9)\n",
    .printf "  p         -> imprime a imagem atual (ASCII)\n",
    .printf "\n" ]

/-- The text-density rendering of an image: 28 lines, line `y` being the glyphs of the
pixels `y*28 + x`, `x = 0..27`, and a newline. -/
def rendering (img : List Nat) : List Effect :=
  ((List.range 28).map (fun y : Nat =>
    (List.range 28).map (fun x : Nat => Effect.printf_c (glyph (img.getD (y * 28 + x) 0)))
      ++ [Effect.printf "\n"])).flatten

/-- What each documented action does to the state of `main`, written out from the
command table: nothing; the help text; the rendering of the sample at `current_idx`
after its heading; the pipeline on the samples 0..9 in order, each after its "Teste"
line and followed by the pause; the cursor set to `d` and the pipeline on sample `d`
after its "Rodando" line; the unknown-command line echoing the byte. -/
def perform {ε : Type} (P : Platform ε) : Action → MainState ε → MainState ε
  | .ignore, s => s
  | .help, s => { s with world := { s.world with trace := s.world.trace ++ help_text } }
  | .render, s =>
    let shown : List Effect :=
      Effect.printf_imagem_atual s.current_idx (P.mnist_labels.getD s.current_idx.toNat 0)
        :: rendering (P.mnist_images.getD s.current_idx.toNat [])
    { s with world := { s.world with trace := s.world.trace ++ shown } }
  | .run_all, s =>
    let after : World ε :=
      [0, 1, 2, 3, 4, 5, 6, 7, 8, 9].foldl
        (fun (w : World ε) (i : Nat) =>
          (run_inference_on_image P (P.mnist_images.getD i []) (P.mnist_labels.getD i 0)
            s.in_bytes s.out_bytes s.in_scale s.in_zp s.out_scale s.out_zp
            (w.emit (.printf_teste_idx i (P.mnist_labels.getD i 0)))).emit (.sleep_ms 200))
        (s.world.emit (.printf "\nTeste automatico 0..9\n"))
    { s with world := after }
  | .select_run d, s =>
    let after : World ε :=
      run_inference_on_image P (P.mnist_images.getD d []) (P.mnist_labels.getD d 0)
        s.in_bytes s.out_bytes s.in_scale s.in_zp s.out_scale s.out_zp
        (s.world.emit (.printf_rodando_idx d (P.mnist_labels.getD d 0)))
    { s with current_idx := d, world := after }
  | .unknown b, s => { s with world := s.world.emit (.printf_comando_desconhecido b) }

/-! ## A concrete platform used to instantiate the statements -/

/-- Output tensor written by the stub engine. -/
def stub_output : List Int :=
  [-10, -10, -10, -10, -10, -10, -10, 90, -10, -10]

/-- A platform with a 32-bit `long`, ten blank images, labels `0..9`, input parameters `(1/128, -128)`,
output parameters `(1/256, -10)` and an engine whose `tflm_invoke` returns `rc` and
writes `stub_output`. -/
def stub_platform (rc : Int) : Platform Unit where
  libm := libm_ilp32
  PICO_ERROR_TIMEOUT := -1
  mnist_images := List.replicate 10 (List.replicate 784 0)
  mnist_labels := [0, 1, 2, 3, 4, 5, 6, 7, 8, 9]
  tflm_init := fun m => (0, m)
  tflm_arena_used_bytes := fun _ => 0
  tflm_input_ptr := fun m => (true, m.input.length)
  tflm_output_ptr := fun m => (true, m.output.length)
  tflm_input_scale := fun _ => 1 / 128
  tflm_input_zero_point := fun _ => -128
  tflm_output_scale := fun _ => 1 / 256
  tflm_output_zero_point := fun _ => -10
  tflm_invoke := fun m => (rc, { m with output := stub_output })

/-- A world with zeroed tensors of 784 and 10 bytes and an empty trace. -/
def stub_world : World Unit :=
  { mem := { input := List.replicate 784 0, output := List.replicate 10 0, arena := () },
    trace := [] }

/-- The locals of `main` on the stub platform, with `current_idx = 7`. -/
def stub_state : MainState Unit :=
  { world := stub_world, in_bytes := 784, out_bytes := 10, in_scale := 1 / 128, in_zp := -128,
    out_scale := 1 / 256, out_zp := -10, current_idx := 7 }

/-! ## Observations on traces -/

/-- Number of `tflm_invoke` calls recorded in a trace. -/
def invoke_count : List Effect → Nat
  | [] => 0
  | .tflm_invoke _ :: t => invoke_count t + 1
  | _ :: t => invoke_count t

/-- Whether an effect is a line of a report block: the expected/predicted line or a
score line. -/
def Effect.is_report_line : Effect → Bool
  | .printf_label_esperado _ _ => true
  | .printf_score _ _ _ => true
  | _ => false

/-- The report-block lines of a trace, in order. -/
def report_lines (t : List Effect) : List Effect :=
  t.filter Effect.is_report_line

/-! ## Spec-side definitions for the quantizer (written from the specification text) -/

section QuantizerSpec

variable {α : Type} [LinearOrderedField α] [FloorRing α]

/-- Spec wording "round-half-away-from-zero": the magnitude is rounded half-up and the
sign is restored afterwards. -/
def round_half_away_spec (r : α) : Int :=
  if r < 0 then -⌊|r| + 1 / 2⌋ else ⌊|r| + 1 / 2⌋

/-- Spec wording "clamps to [lo, hi]". -/
def clamp_spec (v lo hi : Int) : Int :=
  max lo (min hi v)

/-- Spec wording of `quantize`: "computes round(x / scale) + zeroPoint, then clamps to
[-128, 127]". -/
def quantize_spec (x scale : α) (zp : Int) : Int :=
  clamp_spec (round_half_away_spec (x / scale) + zp) (-128) 127

end QuantizerSpec

/-! ## Lemmas on the numeric helpers -/

/-! ### Rounding to an integer -/

section RoundLemmas

variable {α : Type} [LinearOrderedField α] [FloorRing α]

lemma toInt8_of_mem {q : Int} (hlo : -128 ≤ q) (hhi : q ≤ 127) : toInt8 q = q := by
  unfold toInt8
  omega

lemma lround_exact_sub_le (x : α) : (lround_exact x : α) - x ≤ 1 / 2 := by
  unfold lround_exact
  split_ifs with h
  · have := Int.floor_le (x + 1 / 2)
    linarith
  · have := Int.lt_floor_add_one (-x + 1 / 2)
    push_cast
    linarith

lemma sub_lround_exact_le (x : α) : x - (lround_exact x : α) ≤ 1 / 2 := by
  unfold lround_exact
  split_ifs with h
  · have := Int.lt_floor_add_one (x + 1 / 2)
    linarith
  · have := Int.floor_le (-x + 1 / 2)
    push_cast
    linarith

lemma abs_sub_lround_exact_le (x : α) : |x - (lround_exact x : α)| ≤ 1 / 2 := by
  rw [abs_le]
  constructor
  · have := lround_exact_sub_le x
    linarith
  · exact sub_lround_exact_le x

lemma lround_exact_nonneg {x : α} (hx : 0 ≤ x) : 0 ≤ lround_exact x := by
  unfold lround_exact
  rw [if_pos hx]
  exact Int.floor_nonneg.mpr (by linarith)

lemma lround_exact_tie_away (x : α) (h : |x - (lround_exact x : α)| = 1 / 2) :
    |x| < |(lround_exact x : α)| := by
  unfold lround_exact at h ⊢
  split_ifs at h ⊢ with hx
  · have h1 := Int.lt_floor_add_one (x + 1 / 2)
    have h2 := Int.floor_le (x + 1 / 2)
    have h3 : x - (⌊x + 1 / 2⌋ : α) = -(1 / 2) := by
      rcases abs_eq (by norm_num : (0 : α) ≤ 1 / 2) |>.mp h with h | h
      · linarith
      · exact h
    have h4 : x < (⌊x + 1 / 2⌋ : α) := by linarith
    rw [abs_of_nonneg hx, abs_of_nonneg (by linarith)]
    exact h4
  · push_neg at hx
    have h1 := Int.lt_floor_add_one (-x + 1 / 2)
    have h2 := Int.floor_le (-x + 1 / 2)
    push_cast at h ⊢
    have h3 : x - -(⌊-x + 1 / 2⌋ : α) = 1 / 2 := by
      rcases abs_eq (by norm_num : (0 : α) ≤ 1 / 2) |>.mp h with h | h
      · exact h
      · linarith
    have h4 : -(⌊-x + 1 / 2⌋ : α) < x := by linarith
    rw [abs_of_neg hx, abs_of_neg (by linarith)]
    linarith

lemma lround_exact_eq_round_half_away_spec (x : α) :
    lround_exact x = round_half_away_spec x := by
  unfold lround_exact round_half_away_spec
  by_cases hx : 0 ≤ x
  · rw [if_pos hx, if_neg (not_lt.mpr hx), abs_of_nonneg hx]
  · rw [if_neg hx, if_pos (not_le.mp hx), abs_of_neg (not_le.mp hx)]

lemma lround_exact_eq_zero {x : α} (hx : |x| < 1 / 2) : lround_exact x = 0 := by
  rw [abs_lt] at hx
  unfold lround_exact
  split_ifs with h
  · rw [Int.floor_eq_iff]
    constructor <;> push_cast <;> linarith
  · rw [neg_eq_zero, Int.floor_eq_iff]
    constructor <;> push_cast <;> linarith

end RoundLemmas

/-! ### Binary32 rounding -/

lemma abs_round_half_even_sub_le (t : ℚ) : |(round_half_even t : ℚ) - t| ≤ 1 / 2 := by
  have h1 := Int.floor_le t
  have h2 := Int.lt_floor_add_one t
  unfold round_half_even
  rw [abs_le]
  split_ifs with a b c
  · constructor <;> linarith
  · push_cast
    constructor <;> linarith
  · constructor <;> linarith
  · push_cast
    constructor <;> linarith

lemma round_half_even_nonneg {t : ℚ} (ht : 0 ≤ t) : 0 ≤ round_half_even t := by
  have h0 : 0 ≤ ⌊t⌋ := Int.floor_nonneg.mpr ht
  unfold round_half_even
  split_ifs <;> omega

lemma f32_exponent_of_log (q : ℚ) (e : Int) (h1 : (2 : ℚ) ^ e ≤ |q|)
    (h2 : |q| < (2 : ℚ) ^ (e + 1)) (he : -126 ≤ e) : f32_exponent q = e := by
  have hpos : 0 < |q| := lt_of_lt_of_le (by positivity) h1
  have hlog : Int.log 2 |q| = e := by
    apply le_antisymm
    · have := (Int.lt_zpow_iff_log_lt (R := ℚ) (b := 2) (by norm_num) hpos (x := e + 1)).mp
        (by exact_mod_cast h2)
      omega
    · exact (Int.zpow_le_iff_le_log (R := ℚ) (b := 2) (by norm_num) hpos).mp
        (by exact_mod_cast h1)
  unfold f32_exponent
  rw [hlog]
  exact max_eq_left he

/-- Evaluation of `f32_round` at a positive normal value of known binade. -/
lemma f32_round_of_pos (q : ℚ) (e : Int) (h1 : (2 : ℚ) ^ e ≤ q) (h2 : q < (2 : ℚ) ^ (e + 1))
    (he : -126 ≤ e) :
    f32_round q = (round_half_even (q / 2 ^ (e - 23)) : ℚ) * 2 ^ (e - 23) := by
  have hpos : 0 < q := lt_of_lt_of_le (by positivity) h1
  have habs : |q| = q := abs_of_pos hpos
  unfold f32_round
  rw [f32_exponent_of_log q e (by rw [habs]; exact h1) (by rw [habs]; exact h2) he]

lemma f32_round_zero : f32_round 0 = 0 := by
  simp [f32_round, round_half_even]

lemma f32_round_nonneg {q : ℚ} (hq : 0 ≤ q) : 0 ≤ f32_round q := by
  unfold f32_round
  have h : (0 : ℚ) ≤ round_half_even (q / 2 ^ (f32_exponent q - 23)) := by
    exact_mod_cast round_half_even_nonneg (div_nonneg hq (by positivity))
  positivity

/-- The rounding error is at most half the grid spacing. -/
lemma f32_round_error (q : ℚ) :
    |f32_round q - q| ≤ 2 ^ (f32_exponent q - 23) / 2 := by
  have hu : (0 : ℚ) < 2 ^ (f32_exponent q - 23) := by positivity
  have h := abs_round_half_even_sub_le (q / 2 ^ (f32_exponent q - 23))
  have hq : q = q / 2 ^ (f32_exponent q - 23) * 2 ^ (f32_exponent q - 23) := by
    field_simp
  have e1 : f32_round q - q =
      ((round_half_even (q / 2 ^ (f32_exponent q - 23)) : ℚ) - q / 2 ^ (f32_exponent q - 23))
        * 2 ^ (f32_exponent q - 23) := by
    unfold f32_round
    rw [sub_mul, ← hq]
  rw [e1, abs_mul, abs_of_pos hu]
  calc _ ≤ 1 / 2 * 2 ^ (f32_exponent q - 23) := mul_le_mul_of_nonneg_right h hu.le
    _ = 2 ^ (f32_exponent q - 23) / 2 := by ring

/-- In the normal range the relative rounding error is at most `2^-24`. -/
lemma f32_round_error_normal (q : ℚ) (hq : (2 : ℚ) ^ (-126 : Int) ≤ |q|) :
    |f32_round q - q| ≤ |q| / 2 ^ 24 := by
  have hpos : 0 < |q| := lt_of_lt_of_le (by positivity) hq
  have hlog : (-126 : Int) ≤ Int.log 2 |q| :=
    (Int.zpow_le_iff_le_log (R := ℚ) (b := 2) (by norm_num) hpos).mp (by exact_mod_cast hq)
  have he : f32_exponent q = Int.log 2 |q| := max_eq_left hlog
  have hle : (2 : ℚ) ^ Int.log 2 |q| ≤ |q| := by
    exact_mod_cast Int.zpow_log_le_self (R := ℚ) (b := 2) (by norm_num) hpos
  have h := f32_round_error q
  rw [he] at h
  have hsplit : (2 : ℚ) ^ (Int.log 2 |q| - 23) = 2 ^ Int.log 2 |q| / 2 ^ 23 := by
    rw [zpow_sub₀ (by norm_num)]
    norm_num
  rw [hsplit] at h
  calc |f32_round q - q| ≤ 2 ^ Int.log 2 |q| / 2 ^ 23 / 2 := h
    _ = 2 ^ Int.log 2 |q| / 2 ^ 24 := by ring
    _ ≤ |q| / 2 ^ 24 := by
      apply div_le_div_of_nonneg_right hle (by positivity)

/-- Below the normal range the absolute rounding error is at most `2^-150`. -/
lemma f32_round_error_subnormal (q : ℚ) (hq : |q| < (2 : ℚ) ^ (-126 : Int)) :
    |f32_round q - q| ≤ 1 / 2 ^ 150 := by
  by_cases h0 : q = 0
  · rw [h0, f32_round_zero]
    norm_num
  · have hpos : 0 < |q| := abs_pos.mpr h0
    have he : f32_exponent q = -126 := by
      unfold f32_exponent
      apply max_eq_right
      have := (Int.lt_zpow_iff_log_lt (R := ℚ) (b := 2) (by norm_num) hpos (x := -126)).mp
        (by exact_mod_cast hq)
      omega
    have h := f32_round_error q
    rw [he] at h
    calc |f32_round q - q| ≤ 2 ^ (-126 - 23 : Int) / 2 := h
      _ = 1 / 2 ^ 150 := by norm_num

/-- The rounding error in every range. -/
lemma f32_round_error_le (q : ℚ) : |f32_round q - q| ≤ |q| / 2 ^ 24 + 1 / 2 ^ 150 := by
  by_cases hq : (2 : ℚ) ^ (-126 : Int) ≤ |q|
  · have := f32_round_error_normal q hq
    have : (0 : ℚ) ≤ 1 / 2 ^ 150 := by positivity
    linarith
  · have := f32_round_error_subnormal q (not_le.mp hq)
    have : (0 : ℚ) ≤ |q| / 2 ^ 24 := by positivity
    linarith

/-- Ties go to the even significand: above `2^24` the grid spacing is 2, and the odd
integers `2^24 + 1` and `2^24 + 3` round to `2^24` and `2^24 + 4`. -/
lemma f32_round_ties_to_even :
    f32_round 16777217 = 16777216 ∧ f32_round 16777219 = 16777220 := by
  constructor
  · rw [f32_round_of_pos _ 24 (by norm_num) (by norm_num) (by norm_num)]
    norm_num [round_half_even]
  · rw [f32_round_of_pos _ 24 (by norm_num) (by norm_num) (by norm_num)]
    norm_num [round_half_even]

/-! ### `long` -/

lemma two_pow_long_bits (L : Libm) (hb : 1 ≤ L.long_bits) :
    (2 : Int) ^ L.long_bits = 2 * 2 ^ (L.long_bits - 1) := by
  have h : L.long_bits = (L.long_bits - 1) + 1 := by omega
  conv_lhs => rw [h]
  rw [pow_succ]
  ring

lemma wrap_long_of_fits (L : Libm) (hb : 1 ≤ L.long_bits) (n : Int) (h : fits_long L n) :
    wrap_long L n = n := by
  obtain ⟨h1, h2⟩ := h
  unfold LONG_MIN at h1
  unfold LONG_MAX at h2
  unfold wrap_long
  rw [two_pow_long_bits L hb]
  have hp : (0 : Int) < 2 ^ (L.long_bits - 1) := by positivity
  rw [Int.emod_eq_of_lt (by omega) (by omega)]
  omega

/-- With at least 32 bits every 32-bit value is a `long`. -/
lemma fits_long_of_int32 (L : Libm) (hb : 32 ≤ L.long_bits) (n : Int)
    (h1 : -(2 ^ 31) ≤ n) (h2 : n ≤ 2 ^ 31 - 1) : fits_long L n := by
  have hp : (2 : Int) ^ 31 ≤ 2 ^ (L.long_bits - 1) :=
    pow_le_pow_right₀ (by norm_num) (by omega)
  unfold fits_long LONG_MIN LONG_MAX
  constructor <;> omega

/-! ### The quantizer when nothing leaves `long` -/

lemma lroundf_of_fits (L : Libm) (x : ℚ) (h : fits_long L (lround_exact x)) :
    lroundf L x = lround_exact x := by
  unfold lroundf
  rw [if_pos h]

lemma quantize_eq_ite (L : Libm) (hb : 1 ≤ L.long_bits) (x scale : ℚ) (zp : Int)
    (h1 : fits_long L (lround_exact (f32_round (x / scale))))
    (h2 : fits_long L (lround_exact (f32_round (x / scale)) + zp)) :
    quantize_f32_to_i8 L x scale zp =
      if lround_exact (f32_round (x / scale)) + zp < -128 then -128
      else if lround_exact (f32_round (x / scale)) + zp > 127 then 127
      else lround_exact (f32_round (x / scale)) + zp := by
  unfold quantize_f32_to_i8
  rw [lroundf_of_fits L _ h1, wrap_long_of_fits L hb _ h2]
  simp only
  split_ifs <;> first | rfl | omega | (apply toInt8_of_mem <;> omega)

/-- The result is an `int8_t` value whatever happens in `long`. -/
lemma quantize_mem (L : Libm) (x scale : ℚ) (zp : Int) :
    -128 ≤ quantize_f32_to_i8 L x scale zp ∧ quantize_f32_to_i8 L x scale zp ≤ 127 := by
  unfold quantize_f32_to_i8
  simp only
  split_ifs <;> (rw [toInt8_of_mem (by omega) (by omega)]; omega)

/-! ## Claims on the quantizer -/

/-- When nothing leaves `long`, the quantizer saturates as C1 says, on the binary32
quotient. -/
lemma quantize_saturates_of_fits (L : Libm) (hb : 1 ≤ L.long_bits) (x scale : ℚ) (zp : Int)
    (h1 : fits_long L (lround_exact (f32_round (x / scale))))
    (h2 : fits_long L (lround_exact (f32_round (x / scale)) + zp)) :
    (lround_exact (f32_round (x / scale)) + zp < -128 →
      quantize_f32_to_i8 L x scale zp = -128) ∧
    (lround_exact (f32_round (x / scale)) + zp > 127 →
      quantize_f32_to_i8 L x scale zp = 127) := by
  rw [quantize_eq_ite L hb x scale zp h1 h2]
  constructor
  · intro h
    rw [if_pos h]
  · intro h
    rw [if_neg (by omega), if_pos h]

lemma round_half_even_mono {a b : ℚ} (h : a ≤ b) : round_half_even a ≤ round_half_even b := by
  by_contra hc
  push_neg at hc
  have ha := abs_round_half_even_sub_le a
  have hb := abs_round_half_even_sub_le b
  rw [abs_le] at ha hb
  have h1 : (round_half_even b : ℚ) + 1 ≤ round_half_even a := by exact_mod_cast hc
  have hab : a = b := by linarith [ha.1, ha.2, hb.1, hb.2]
  rw [hab] at hc
  exact lt_irrefl _ hc

lemma round_half_even_intCast (n : Int) : round_half_even (n : ℚ) = n := by
  unfold round_half_even
  simp

lemma f32_exponent_mono {a b : ℚ} (ha : 0 < a) (h : a ≤ b) :
    f32_exponent a ≤ f32_exponent b := by
  unfold f32_exponent
  have hb : 0 < b := lt_of_lt_of_le ha h
  rw [abs_of_pos ha, abs_of_pos hb]
  exact max_le_max (Int.log_mono_right ha h) le_rfl

lemma lt_two_zpow_f32_exponent_succ {a : ℚ} (ha : 0 < a) :
    a < (2 : ℚ) ^ (f32_exponent a + 1) := by
  have h1 : a < (2 : ℚ) ^ (Int.log 2 |a| + 1) := by
    have := Int.lt_zpow_succ_log_self (R := ℚ) (b := 2) (by norm_num) |a|
    rw [abs_of_pos ha] at this ⊢
    exact_mod_cast this
  have h2 : Int.log 2 |a| + 1 ≤ f32_exponent a + 1 := by
    unfold f32_exponent
    have := le_max_left (Int.log 2 |a|) (-126)
    omega
  exact lt_of_lt_of_le h1 (zpow_le_zpow_right₀ (by norm_num) h2)

/-- A positive value rounds to at most the top of its binade. -/
lemma f32_round_le_binade_top {a : ℚ} (ha : 0 < a) :
    f32_round a ≤ (2 : ℚ) ^ (f32_exponent a + 1) := by
  have hu : (0 : ℚ) < 2 ^ (f32_exponent a - 23) := by positivity
  have hlt := lt_two_zpow_f32_exponent_succ ha
  have hq : a / 2 ^ (f32_exponent a - 23) ≤ ((2 ^ 24 : Int) : ℚ) := by
    rw [div_le_iff₀ hu]
    have : (((2 : Int) ^ 24 : Int) : ℚ) * 2 ^ (f32_exponent a - 23)
        = (2 : ℚ) ^ (f32_exponent a + 1) := by
      push_cast
      rw [show f32_exponent a + 1 = 24 + (f32_exponent a - 23) by ring,
        zpow_add₀ (by norm_num)]
      norm_num
    rw [this]
    exact hlt.le
  have hr := round_half_even_mono hq
  rw [round_half_even_intCast] at hr
  have hr' : (round_half_even (a / 2 ^ (f32_exponent a - 23)) : ℚ) ≤ 2 ^ 24 := by
    exact_mod_cast hr
  unfold f32_round
  calc _ ≤ (2 : ℚ) ^ 24 * 2 ^ (f32_exponent a - 23) := mul_le_mul_of_nonneg_right hr' hu.le
    _ = (2 : ℚ) ^ (f32_exponent a + 1) := by
      rw [show f32_exponent a + 1 = 24 + (f32_exponent a - 23) by ring,
        zpow_add₀ (by norm_num)]
      norm_num

/-- A positive value of a binade above the lowest rounds to at least its bottom. -/
lemma binade_bottom_le_f32_round {b : ℚ} (hb : 0 < b) (he : -126 < f32_exponent b) :
    (2 : ℚ) ^ f32_exponent b ≤ f32_round b := by
  have hu : (0 : ℚ) < 2 ^ (f32_exponent b - 23) := by positivity
  have hlog : f32_exponent b = Int.log 2 |b| := by
    unfold f32_exponent at he ⊢
    apply max_eq_left
    by_contra hc
    push_neg at hc
    rw [max_eq_right hc.le] at he
    exact lt_irrefl _ he
  have hle : (2 : ℚ) ^ f32_exponent b ≤ b := by
    rw [hlog]
    have := Int.zpow_log_le_self (R := ℚ) (b := 2) (by norm_num) (abs_pos.mpr hb.ne')
    rw [abs_of_pos hb] at this ⊢
    exact_mod_cast this
  have hq : ((2 ^ 23 : Int) : ℚ) ≤ b / 2 ^ (f32_exponent b - 23) := by
    rw [le_div_iff₀ hu]
    have : (((2 : Int) ^ 23 : Int) : ℚ) * 2 ^ (f32_exponent b - 23)
        = (2 : ℚ) ^ f32_exponent b := by
      push_cast
      rw [show f32_exponent b = 23 + (f32_exponent b - 23) by ring, zpow_add₀ (by norm_num)]
      norm_num
    rw [this]
    exact hle
  have hr := round_half_even_mono hq
  rw [round_half_even_intCast] at hr
  have hr' : (2 : ℚ) ^ 23 ≤ (round_half_even (b / 2 ^ (f32_exponent b - 23)) : ℚ) := by
    exact_mod_cast hr
  unfold f32_round
  calc (2 : ℚ) ^ f32_exponent b = (2 : ℚ) ^ 23 * 2 ^ (f32_exponent b - 23) := by
        rw [show f32_exponent b = 23 + (f32_exponent b - 23) by ring, zpow_add₀ (by norm_num)]
        norm_num
    _ ≤ _ := mul_le_mul_of_nonneg_right hr' hu.le

/-- Binary32 rounding is monotone on non-negative values. -/
lemma f32_round_mono {a b : ℚ} (ha : 0 ≤ a) (h : a ≤ b) : f32_round a ≤ f32_round b := by
  rcases ha.eq_or_lt with h0 | hpos
  · rw [← h0, f32_round_zero]
    exact f32_round_nonneg (by linarith)
  · have hb : 0 < b := lt_of_lt_of_le hpos h
    have hexp := f32_exponent_mono hpos h
    rcases hexp.eq_or_lt with heq | hlt
    · unfold f32_round
      rw [heq]
      have hu : (0 : ℚ) < 2 ^ (f32_exponent b - 23) := by positivity
      have hq : a / 2 ^ (f32_exponent b - 23) ≤ b / 2 ^ (f32_exponent b - 23) :=
        div_le_div_of_nonneg_right h hu.le
      have hr : (round_half_even (a / 2 ^ (f32_exponent b - 23)) : ℚ)
          ≤ round_half_even (b / 2 ^ (f32_exponent b - 23)) := by
        exact_mod_cast round_half_even_mono hq
      exact mul_le_mul_of_nonneg_right hr hu.le
    · have h1 := f32_round_le_binade_top hpos
      have hge : -126 ≤ f32_exponent a := le_max_right _ _
      have h2 := binade_bottom_le_f32_round hb (by omega)
      have h3 : (2 : ℚ) ^ (f32_exponent a + 1) ≤ 2 ^ f32_exponent b :=
        zpow_le_zpow_right₀ (by norm_num) (by omega)
      linarith

lemma lround_exact_mono_of_nonneg {x y : ℚ} (hx : 0 ≤ x) (h : x ≤ y) :
    lround_exact x ≤ lround_exact y := by
  unfold lround_exact
  rw [if_pos hx, if_pos (le_trans hx h)]
  exact Int.floor_mono (by linarith)

/-- Half-integers below `2^23` are binary32 values. -/
lemma f32_round_half_nat (m : Nat) (hm : m < 2 ^ 24) : f32_round ((m : ℚ) / 2) = (m : ℚ) / 2 := by
  rcases Nat.eq_zero_or_pos m with h0 | hpos
  · subst h0
    simp [f32_round_zero]
  · have hq : (0 : ℚ) < (m : ℚ) / 2 := by positivity
    have hlt : (m : ℚ) / 2 < (2 : ℚ) ^ (23 : Int) := by
      have : (m : ℚ) < 16777216 := by exact_mod_cast hm
      norm_num
      linarith
    have he : f32_exponent ((m : ℚ) / 2) ≤ 22 := by
      unfold f32_exponent
      apply max_le _ (by norm_num)
      rw [abs_of_pos hq]
      have := (Int.lt_zpow_iff_log_lt (R := ℚ) (b := 2) (by norm_num) hq).mp hlt
      omega
    obtain ⟨k, hk⟩ : ∃ k : Nat, (22 : Int) - f32_exponent ((m : ℚ) / 2) = k :=
      ⟨(22 - f32_exponent ((m : ℚ) / 2)).toNat, (Int.toNat_of_nonneg (by omega)).symm⟩
    have hu : (2 : ℚ) ^ (f32_exponent ((m : ℚ) / 2) - 23) = 1 / (2 * 2 ^ k) := by
      rw [show f32_exponent ((m : ℚ) / 2) - 23 = -(1 + (k : Int)) by omega, zpow_neg,
        zpow_add₀ (by norm_num), zpow_one, zpow_natCast]
      simp
    unfold f32_round
    rw [hu]
    have hint : (m : ℚ) / 2 / (1 / (2 * 2 ^ k)) = (((m * 2 ^ k : Nat) : Int) : ℚ) := by
      push_cast
      field_simp
      ring
    rw [hint, round_half_even_intCast]
    push_cast
    field_simp
    ring

/-- When nothing leaves `long`, a non-negative `x` whose real quotient rounds, with the
zero point added, above 127 quantizes to 127: the binary32 rounding of the quotient
does not move it across the saturation threshold. -/
lemma quantize_saturates_high_of_fits (L : Libm) (hb : 1 ≤ L.long_bits) (x scale : ℚ)
    (zp : Int) (hx : 0 ≤ x) (hs : 0 < scale) (hzlo : -128 ≤ zp) (hzhi : zp ≤ 127)
    (h1 : fits_long L (lround_exact (f32_round (x / scale))))
    (h2 : fits_long L (lround_exact (f32_round (x / scale)) + zp))
    (h : round_half_away_spec (x / scale) + zp > 127) :
    quantize_f32_to_i8 L x scale zp = 127 := by
  apply (quantize_saturates_of_fits L hb x scale zp h1 h2).2
  have ht : (0 : ℚ) ≤ x / scale := div_nonneg hx hs.le
  rw [← lround_exact_eq_round_half_away_spec] at h
  obtain ⟨m, hm⟩ : ∃ m : Nat, (2 * (127 - zp) + 1 : Int) = m :=
    ⟨(2 * (127 - zp) + 1).toNat, (Int.toNat_of_nonneg (by omega)).symm⟩
  have hm24 : m < 2 ^ 24 := by
    have : (m : Int) < 2 ^ 24 := by rw [← hm]; norm_num; omega
    exact_mod_cast this
  have hmq : (m : ℚ) / 2 = (127 - zp : ℚ) + 1 / 2 := by
    have : ((m : Int) : ℚ) = 2 * (127 - (zp : ℚ)) + 1 := by rw [← hm]; push_cast; ring
    have h3 : (m : ℚ) = 2 * (127 - (zp : ℚ)) + 1 := by exact_mod_cast this
    rw [h3]
    ring
  have hc : (m : ℚ) / 2 ≤ x / scale := by
    have hfl : (128 - zp : Int) ≤ ⌊x / scale + 1 / 2⌋ := by
      unfold lround_exact at h
      rw [if_pos ht] at h
      omega
    have := Int.le_floor.mp hfl
    rw [hmq]
    push_cast at this
    linarith
  have hmono := f32_round_mono (by positivity) hc
  rw [f32_round_half_nat m hm24] at hmono
  have hl := lround_exact_mono_of_nonneg (by positivity) hmono
  have hlm : lround_exact ((m : ℚ) / 2) = 128 - zp := by
    unfold lround_exact
    rw [if_pos (by positivity), hmq, Int.floor_eq_iff]
    constructor <;> push_cast <;> linarith
  rw [hlm] at hl
  omega

/-- When nothing leaves `long`, the quantizer is monotone in a non-negative `x`. -/
lemma quantize_mono_of_fits (L : Libm) (hb : 1 ≤ L.long_bits) (x y scale : ℚ) (zp : Int)
    (hx : 0 ≤ x) (hxy : x ≤ y) (hs : 0 < scale)
    (hx1 : fits_long L (lround_exact (f32_round (x / scale))))
    (hx2 : fits_long L (lround_exact (f32_round (x / scale)) + zp))
    (hy1 : fits_long L (lround_exact (f32_round (y / scale))))
    (hy2 : fits_long L (lround_exact (f32_round (y / scale)) + zp)) :
    quantize_f32_to_i8 L x scale zp ≤ quantize_f32_to_i8 L y scale zp := by
  have hq : x / scale ≤ y / scale := div_le_div_of_nonneg_right hxy hs.le
  have hf := f32_round_mono (div_nonneg hx hs.le) hq
  have hl := lround_exact_mono_of_nonneg (f32_round_nonneg (div_nonneg hx hs.le)) hf
  rw [quantize_eq_ite L hb x scale zp hx1 hx2, quantize_eq_ite L hb y scale zp hy1 hy2]
  split_ifs <;> omega

/-- C1, evaluation at the failing input `x = 1.0f` (pixel 255), `scale = 2^-70`,
`zp = 0`: the quotient `2^70` is not representable in `long`, so the result of `lroundf`
is unspecified; with a 64-bit `long` and an `lroundf` that returns `LONG_MIN` there,
`quantize_f32_to_i8` returns -128 although `round(x/scale) + zp > 127`. With a 32-bit
`long`, a saturating `lroundf` and `zp = 1` the sum in `long` wraps and the result is
-128 as well. -/
theorem quantize_overflow_not_saturated :
    pixel_f32 255 = 1 ∧ (0 : ℚ) < 1 / 2 ^ 70 ∧
    round_half_away_spec ((1 : ℚ) / (1 / 2 ^ 70)) + 0 > 127 ∧
    quantize_f32_to_i8 libm_lp64 1 (1 / 2 ^ 70) 0 = -128 ∧
    round_half_away_spec ((1 : ℚ) / (1 / 2 ^ 70)) + 1 > 127 ∧
    quantize_f32_to_i8 libm_ilp32 1 (1 / 2 ^ 70) 1 = -128 := by
  have hq : f32_round ((1 : ℚ) / (1 / 2 ^ 70)) = 2 ^ 70 := by
    rw [f32_round_of_pos _ 70 (by norm_num) (by norm_num) (by norm_num)]
    norm_num [round_half_even]
  have hr : lround_exact ((2 : ℚ) ^ 70) = 2 ^ 70 := by
    norm_num [lround_exact]
  have hreal : round_half_away_spec ((1 : ℚ) / (1 / 2 ^ 70)) = 2 ^ 70 := by
    rw [← lround_exact_eq_round_half_away_spec]
    norm_num [lround_exact]
  have hl : lroundf libm_lp64 ((2 : ℚ) ^ 70) = -(2 ^ 63) := by
    unfold lroundf
    rw [hr, if_neg (by norm_num [fits_long, LONG_MIN, LONG_MAX, libm_lp64])]
    norm_num [wrap_long, libm_lp64]
  have hl32 : lroundf libm_ilp32 ((2 : ℚ) ^ 70) = 2 ^ 31 - 1 := by
    unfold lroundf
    rw [hr, if_neg (by norm_num [fits_long, LONG_MIN, LONG_MAX, libm_ilp32])]
    norm_num [wrap_long, libm_ilp32]
  have h255 : f32_round (255 : ℚ) = 255 := by
    rw [f32_round_of_pos _ 7 (by norm_num) (by norm_num) (by norm_num)]
    norm_num [round_half_even]
  have h1 : f32_round (1 : ℚ) = 1 := by
    rw [f32_round_of_pos _ 0 (by norm_num) (by norm_num) (by norm_num)]
    norm_num [round_half_even]
  refine ⟨?_, by norm_num, ?_, ?_, ?_, ?_⟩
  · unfold pixel_f32 i2f
    norm_num [h255, h1]
  · rw [hreal]
    norm_num
  · unfold quantize_f32_to_i8
    rw [hq, hl]
    norm_num [wrap_long, libm_lp64, toInt8]
  · rw [hreal]
    norm_num
  · unfold quantize_f32_to_i8
    rw [hq, hl32]
    norm_num [wrap_long, libm_ilp32, toInt8]

/-- Rounding a binary32-rounded value to an integer stays within half a unit, plus the
relative float error, of the exact value. -/
lemma abs_lround_f32_sub_le (t : ℚ) :
    |(lround_exact (f32_round t) : ℚ) - t| ≤ 1 / 2 + |t| / 2 ^ 24 := by
  by_cases ht : (2 : ℚ) ^ (-126 : Int) ≤ |t|
  · have h1 := abs_sub_lround_exact_le (f32_round t)
    have h2 := f32_round_error_normal t ht
    have h3 : (lround_exact (f32_round t) : ℚ) - t =
        -(f32_round t - (lround_exact (f32_round t) : ℚ)) + (f32_round t - t) := by ring
    rw [h3]
    calc _ ≤ |-(f32_round t - (lround_exact (f32_round t) : ℚ))| + |f32_round t - t| :=
          abs_add _ _
      _ ≤ 1 / 2 + |t| / 2 ^ 24 := by
        rw [abs_neg]
        exact add_le_add h1 h2
  · push_neg at ht
    have h2 := f32_round_error_subnormal t ht
    have ht' : |t| < 1 / 4 := lt_of_lt_of_le ht (by norm_num)
    have hq : |f32_round t| < 1 / 2 := by
      have h4 : f32_round t = (f32_round t - t) + t := by ring
      rw [h4]
      calc _ ≤ |f32_round t - t| + |t| := abs_add _ _
        _ < 1 / 2 := by
          have : (1 : ℚ) / 2 ^ 150 ≤ 1 / 4 := by norm_num
          linarith
    rw [lround_exact_eq_zero hq]
    have : (0 : ℚ) ≤ |t| / 2 ^ 24 := by positivity
    simp only [Int.cast_zero, zero_sub, abs_neg]
    linarith

/-- C3 as stated fails on the float quotient: `x = 0.25f`, `scale = 0.1f`
(`13421773 / 2^27`), `zp = 0`. The exact quotient is below 2.5 and rounds to 2, the
binary32 quotient is exactly 2.5 and `quantize_f32_to_i8` returns 3, where the formula
`clamp(round(x/scale) + zp, -128, 127)` gives 2. -/
theorem quantize_float_quotient_counterexample :
    f32_round (1 / 4) = 1 / 4 ∧ f32_round (1 / 10) = 13421773 / 134217728 ∧
    (0 : ℚ) < 13421773 / 134217728 ∧
    quantize_f32_to_i8 libm_ilp32 (1 / 4) (13421773 / 134217728) 0 = 3 ∧
    quantize_spec (1 / 4 : ℚ) (13421773 / 134217728) 0 = 2 := by
  have hq : f32_round ((1 / 4 : ℚ) / (13421773 / 134217728)) = 5 / 2 := by
    rw [f32_round_of_pos _ 1 (by norm_num) (by norm_num) (by norm_num)]
    norm_num [round_half_even]
  have hr : lround_exact (5 / 2 : ℚ) = 3 := by
    norm_num [lround_exact]
  refine ⟨?_, ?_, by norm_num, ?_, ?_⟩
  · rw [f32_round_of_pos _ (-2) (by norm_num) (by norm_num) (by norm_num)]
    norm_num [round_half_even]
  · rw [f32_round_of_pos _ (-4) (by norm_num) (by norm_num) (by norm_num)]
    norm_num [round_half_even]
  · rw [quantize_eq_ite libm_ilp32 (by decide) _ _ _
      (by rw [hq, hr]; norm_num [fits_long, LONG_MIN, LONG_MAX, libm_ilp32])
      (by rw [hq, hr]; norm_num [fits_long, LONG_MIN, LONG_MAX, libm_ilp32]), hq, hr]
    norm_num
  · rw [quantize_spec, ← lround_exact_eq_round_half_away_spec]
    norm_num [lround_exact, clamp_spec]

/-- C3 (amended): when the rounded quotient and its sum with `zp` are representable in
`long`, `quantize_f32_to_i8` is `clamp(round(q) + zp, -128, 127)` where `q` is the
binary32 quotient `x / scale` (the exact quotient rounded to nearest, within a relative
`2^-24` plus `2^-150` of it), `round` is round-half-away-from-zero applied to `q` alone
and `zp` is added after rounding: `q = 5/2` gives `3 + zp`, `q = -5/2` gives `-3 + zp`. -/
theorem quantize_eq_clamp_round_f32 (L : Libm) (x scale : ℚ) (zp : Int) (_hs : 0 < scale)
    (hb : 32 ≤ L.long_bits)
    (h1 : fits_long L (round_half_away_spec (f32_round (x / scale))))
    (h2 : fits_long L (round_half_away_spec (f32_round (x / scale)) + zp)) :
    quantize_f32_to_i8 L x scale zp
        = clamp_spec (round_half_away_spec (f32_round (x / scale)) + zp) (-128) 127 ∧
    |f32_round (x / scale) - x / scale| ≤ |x / scale| / 2 ^ 24 + 1 / 2 ^ 150 ∧
    |f32_round (x / scale) - (round_half_away_spec (f32_round (x / scale)) : ℚ)| ≤ 1 / 2 ∧
    (|f32_round (x / scale) - (round_half_away_spec (f32_round (x / scale)) : ℚ)| = 1 / 2 →
      |f32_round (x / scale)| < |(round_half_away_spec (f32_round (x / scale)) : ℚ)|) ∧
    (f32_round (x / scale) = 5 / 2 →
      quantize_f32_to_i8 L x scale zp = clamp_spec (3 + zp) (-128) 127) ∧
    (f32_round (x / scale) = -(5 / 2) →
      quantize_f32_to_i8 L x scale zp = clamp_spec (-3 + zp) (-128) 127) := by
  rw [← lround_exact_eq_round_half_away_spec] at h1 h2 ⊢
  have hq : quantize_f32_to_i8 L x scale zp
      = clamp_spec (lround_exact (f32_round (x / scale)) + zp) (-128) 127 := by
    rw [quantize_eq_ite L (by omega) x scale zp h1 h2, clamp_spec]
    split_ifs <;> omega
  refine ⟨hq, f32_round_error_le _, abs_sub_lround_exact_le _, lround_exact_tie_away _, ?_, ?_⟩
  · intro h
    rw [hq, h]
    have : lround_exact (5 / 2 : ℚ) = 3 := by norm_num [lround_exact]
    rw [this]
  · intro h
    rw [hq, h]
    have : lround_exact (-(5 / 2) : ℚ) = -3 := by norm_num [lround_exact]
    rw [this]

/-- Witness for the amended C3: `x = 0.25f`, `scale = 0.1f`, `zp = 7` on a 32-bit
`long`; the binary32 quotient is 5/2 and the result is `3 + 7`. -/
theorem quantize_eq_clamp_round_f32_witness :
    quantize_f32_to_i8 libm_ilp32 (1 / 4) (13421773 / 134217728) 7
      = clamp_spec (3 + 7) (-128) 127 := by
  have hq : f32_round ((1 / 4 : ℚ) / (13421773 / 134217728)) = 5 / 2 := by
    rw [f32_round_of_pos _ 1 (by norm_num) (by norm_num) (by norm_num)]
    norm_num [round_half_even]
  have hr : round_half_away_spec (5 / 2 : ℚ) = 3 := by
    rw [← lround_exact_eq_round_half_away_spec]
    norm_num [lround_exact]
  exact (quantize_eq_clamp_round_f32 libm_ilp32 (1 / 4) (13421773 / 134217728) 7
    (by norm_num) (by decide)
    (by rw [hq, hr]; norm_num [fits_long, LONG_MIN, LONG_MAX, libm_ilp32])
    (by rw [hq, hr]; norm_num [fits_long, LONG_MIN, LONG_MAX, libm_ilp32])).2.2.2.2.1 hq

/-- C2 as stated fails under saturation: for `x = 1`, `scale = 2^-8`, `zp = 0` (valid
parameters, `x` in [0,1]) the quantized value saturates at 127, the dequantized value is
127/256 and the round-trip error 129/256 is more than one step `1/256`. -/
theorem roundtrip_bound_counterexample :
    (0 : ℚ) ≤ 1 ∧ (1 : ℚ) ≤ 1 ∧ (0 : ℚ) < 1 / 256 ∧ (-128 : Int) ≤ 0 ∧ (0 : Int) ≤ 127 ∧
    quantize_f32_to_i8 libm_ilp32 1 (1 / 256) 0 = 127 ∧
    dequant_score 127 0 (1 / 256) = 127 / 256 ∧
    ¬ |dequant_score (quantize_f32_to_i8 libm_ilp32 1 (1 / 256) 0) 0 (1 / 256) - 1|
        ≤ 1 / 256 := by
  have hq : f32_round ((1 : ℚ) / (1 / 256)) = 256 := by
    rw [f32_round_of_pos _ 8 (by norm_num) (by norm_num) (by norm_num)]
    norm_num [round_half_even]
  have hr : lround_exact (256 : ℚ) = 256 := by
    norm_num [lround_exact]
  have hQ : quantize_f32_to_i8 libm_ilp32 1 (1 / 256) 0 = 127 := by
    rw [quantize_eq_ite libm_ilp32 (by decide) _ _ _
      (by rw [hq, hr]; norm_num [fits_long, LONG_MIN, LONG_MAX, libm_ilp32])
      (by rw [hq, hr]; norm_num [fits_long, LONG_MIN, LONG_MAX, libm_ilp32]), hq, hr]
    norm_num
  have h127 : f32_round (127 : ℚ) = 127 := by
    rw [f32_round_of_pos _ 6 (by norm_num) (by norm_num) (by norm_num)]
    norm_num [round_half_even]
  have hd : dequant_score 127 0 (1 / 256) = 127 / 256 := by
    unfold dequant_score i2f
    norm_num
    rw [h127, f32_round_of_pos _ (-2) (by norm_num) (by norm_num) (by norm_num)]
    norm_num [round_half_even]
  refine ⟨by norm_num, by norm_num, by norm_num, by norm_num, by norm_num, hQ, hd, ?_⟩
  rw [hQ, hd]
  norm_num [abs_le]

/-- The conversion `(float)r` of a non-negative integer has relative error at most
`2^-24`. -/
lemma abs_i2f_sub_le (r : Int) (hr : 0 ≤ r) : |i2f r - (r : ℚ)| ≤ (r : ℚ) / 2 ^ 24 := by
  unfold i2f
  rcases (by omega : r = 0 ∨ 1 ≤ r) with h | h
  · rw [h]
    simp [f32_round_zero]
  · have h1 : (1 : ℚ) ≤ (r : ℚ) := by exact_mod_cast h
    have habs : |(r : ℚ)| = (r : ℚ) := abs_of_nonneg (by linarith)
    have := f32_round_error_normal (r : ℚ) (by rw [habs]; exact le_trans (by norm_num) h1)
    rwa [habs] at this

/-- C2 (amended): for `x` in [0,1], a `scale` in the normal binary32 range
(`scale ≥ 2^-126`), a zero-point in [-128,127] and a `long` of at least 32 bits, when the
quantizer does not saturate (`round(q) + zp ≤ 127` for the binary32 quotient `q`) the
dequantized value `(float)(quantize(x) - zp) * scale`, computed in binary32, is within
`scale` of `x`. -/
theorem roundtrip_bound_f32 (L : Libm) (x scale : ℚ) (zp : Int) (hx0 : 0 ≤ x) (_hx1 : x ≤ 1)
    (hs : (2 : ℚ) ^ (-126 : Int) ≤ scale) (hzlo : -128 ≤ zp) (hzhi : zp ≤ 127)
    (hb : 32 ≤ L.long_bits)
    (hsat : round_half_away_spec (f32_round (x / scale)) + zp ≤ 127) :
    |dequant_score (quantize_f32_to_i8 L x scale zp) zp scale - x| ≤ scale := by
  rw [← lround_exact_eq_round_half_away_spec] at hsat
  have hs0 : 0 < scale := lt_of_lt_of_le (by positivity) hs
  have hs' : (1 : ℚ) / 2 ^ 126 ≤ scale := le_trans (by norm_num) hs
  have ht0 : 0 ≤ x / scale := div_nonneg hx0 hs0.le
  have hr0 : 0 ≤ lround_exact (f32_round (x / scale)) :=
    lround_exact_nonneg (f32_round_nonneg ht0)
  have hfit1 : fits_long L (lround_exact (f32_round (x / scale))) :=
    fits_long_of_int32 L hb _ (by omega) (by omega)
  have hfit2 : fits_long L (lround_exact (f32_round (x / scale)) + zp) :=
    fits_long_of_int32 L hb _ (by omega) (by omega)
  have hq : quantize_f32_to_i8 L x scale zp = lround_exact (f32_round (x / scale)) + zp := by
    rw [quantize_eq_ite L (by omega) x scale zp hfit1 hfit2, if_neg (by omega),
      if_neg (by omega)]
  rw [hq]
  unfold dequant_score
  rw [show lround_exact (f32_round (x / scale)) + zp - zp
      = lround_exact (f32_round (x / scale)) by ring]
  generalize hrdef : lround_exact (f32_round (x / scale)) = r at hr0 hsat
  have hr255 : (r : ℚ) ≤ 255 := by exact_mod_cast (by omega : r ≤ 255)
  have hr0' : (0 : ℚ) ≤ (r : ℚ) := by exact_mod_cast hr0
  -- the three rounding steps
  have hA := abs_i2f_sub_le r hr0
  have hB := f32_round_error_le (i2f r * scale)
  have hC := abs_lround_f32_sub_le (x / scale)
  rw [hrdef, abs_of_nonneg ht0] at hC
  rw [abs_le] at hA hC
  have ht256 : x / scale ≤ 256 := by linarith [hC.1]
  have hx : x = x / scale * scale := by field_simp
  have hk0 : 0 ≤ i2f r := by linarith [hA.1]
  have hk256 : i2f r ≤ 256 := by linarith [hA.2]
  have hp0 : 0 ≤ i2f r * scale := mul_nonneg hk0 hs0.le
  have hp256 : i2f r * scale ≤ 256 * scale := mul_le_mul_of_nonneg_right hk256 hs0.le
  rw [abs_of_nonneg hp0] at hB
  rw [abs_le] at hB ⊢
  -- scaled forms of the integer steps
  have hA1 : -((r : ℚ) / 2 ^ 24) * scale ≤ (i2f r - (r : ℚ)) * scale :=
    mul_le_mul_of_nonneg_right hA.1 hs0.le
  have hA2 : (i2f r - (r : ℚ)) * scale ≤ (r : ℚ) / 2 ^ 24 * scale :=
    mul_le_mul_of_nonneg_right hA.2 hs0.le
  have hC1 : -(1 / 2 + x / scale / 2 ^ 24) * scale ≤ ((r : ℚ) - x / scale) * scale :=
    mul_le_mul_of_nonneg_right hC.1 hs0.le
  have hC2 : ((r : ℚ) - x / scale) * scale ≤ (1 / 2 + x / scale / 2 ^ 24) * scale :=
    mul_le_mul_of_nonneg_right hC.2 hs0.le
  have hrs : (r : ℚ) / 2 ^ 24 * scale ≤ 255 / 2 ^ 24 * scale :=
    mul_le_mul_of_nonneg_right (by linarith) hs0.le
  have hts : (1 / 2 + x / scale / 2 ^ 24) * scale ≤ (1 / 2 + 256 / 2 ^ 24) * scale :=
    mul_le_mul_of_nonneg_right (by linarith) hs0.le
  have hxs : (x / scale) * scale = x := hx.symm
  have hsmall : (1 : ℚ) / 2 ^ 150 ≤ scale / 2 ^ 24 := by
    calc (1 : ℚ) / 2 ^ 150 = 1 / 2 ^ 126 / 2 ^ 24 := by norm_num
      _ ≤ scale / 2 ^ 24 := div_le_div_of_nonneg_right hs' (by positivity)
  have e : f32_round (i2f r * scale) - x =
      (f32_round (i2f r * scale) - i2f r * scale) + (i2f r - (r : ℚ)) * scale
        + ((r : ℚ) - x / scale) * scale := by
    rw [sub_mul (r : ℚ), hxs]
    ring
  rw [e]
  constructor
  · nlinarith [hB.1, hA1, hC1, hrs, hts, hp256, hsmall]
  · nlinarith [hB.2, hA2, hC2, hrs, hts, hp256, hsmall]

/-- Witness for the amended C2: `x = 0.5`, `scale = 2^-7`, `zp = -128` on a 32-bit
`long`: the quotient is 64 and `64 - 128 ≤ 127`. -/
theorem roundtrip_bound_f32_witness :
    |dequant_score (quantize_f32_to_i8 libm_ilp32 (1 / 2) (1 / 128) (-128)) (-128) (1 / 128)
        - 1 / 2| ≤ 1 / 128 := by
  have hq : f32_round ((1 / 2 : ℚ) / (1 / 128)) = 64 := by
    rw [f32_round_of_pos _ 6 (by norm_num) (by norm_num) (by norm_num)]
    norm_num [round_half_even]
  have hr : round_half_away_spec (64 : ℚ) = 64 := by
    rw [← lround_exact_eq_round_half_away_spec]
    norm_num [lround_exact]
  exact roundtrip_bound_f32 libm_ilp32 (1 / 2) (1 / 128) (-128) (by norm_num) (by norm_num)
    (by norm_num) (by norm_num) (by norm_num) (by decide) (by rw [hq, hr]; norm_num)

/-! ## argmax -/

/-- Loop invariant of `argmax_i8`: `best` is the lowest index of the maximum of the
first `i` entries, and stays so for the index returned after `fuel` more iterations. -/
lemma argmax_loop_spec (v : List Int) (fuel : Nat) :
    ∀ (i best : Nat) (bestv : Int), best < i → bestv = v.getD best 0 →
      (∀ k, k < i → v.getD k 0 ≤ bestv) → (∀ j, j < best → v.getD j 0 < bestv) →
      argmax_loop v fuel i best bestv < i + fuel ∧
      (∀ k, k < i + fuel → v.getD k 0 ≤ v.getD (argmax_loop v fuel i best bestv) 0) ∧
      (∀ j, j < argmax_loop v fuel i best bestv →
        v.getD j 0 < v.getD (argmax_loop v fuel i best bestv) 0) := by
  induction fuel with
  | zero =>
    intro i best bestv hb hv hmax hlow
    simp only [argmax_loop, Nat.add_zero]
    subst hv
    exact ⟨hb, hmax, hlow⟩
  | succ fuel ih =>
    intro i best bestv hb hv hmax hlow
    simp only [argmax_loop]
    have hi : i + (fuel + 1) = (i + 1) + fuel := by omega
    rw [hi]
    split_ifs with hgt
    · apply ih (i + 1) i (v.getD i 0) (by omega) rfl
      · intro k hk
        rcases Nat.lt_succ_iff_lt_or_eq.mp hk with h | h
        · exact le_trans (hmax k h) (le_of_lt hgt)
        · rw [h]
      · intro j hj
        exact lt_of_le_of_lt (hmax j hj) hgt
    · apply ih (i + 1) best bestv (by omega) hv
      · intro k hk
        rcases Nat.lt_succ_iff_lt_or_eq.mp hk with h | h
        · exact hmax k h
        · rw [h]
          exact not_lt.mp hgt
      · exact hlow

/-- C4: for `n ≥ 1` values, `argmax_i8 v n` is an index `b < n` with `v[b] ≥ v[i]` for
every `i < n` and `v[j] < v[b]` for every `j < b` (the lowest index of the maximum); in
particular when entry 0 already is a maximum (as in `[5,5,3,...]`) the result is 0. -/
theorem argmax_i8_lowest_max (v : List Int) (n : Nat) (hn : 1 ≤ n) (_hlen : n ≤ v.length) :
    argmax_i8 v n < n ∧
    (∀ i, i < n → v.getD i 0 ≤ v.getD (argmax_i8 v n) 0) ∧
    (∀ j, j < argmax_i8 v n → v.getD j 0 < v.getD (argmax_i8 v n) 0) ∧
    ((∀ i, i < n → v.getD i 0 ≤ v.getD 0 0) → argmax_i8 v n = 0) := by
  have h := argmax_loop_spec v (n - 1) 1 0 (v.getD 0 0) (by omega) rfl
    (by
      intro k hk
      have : k = 0 := by omega
      rw [this])
    (by
      intro j hj
      omega)
  have hn1 : 1 + (n - 1) = n := by omega
  rw [hn1] at h
  unfold argmax_i8
  refine ⟨h.1, h.2.1, h.2.2, ?_⟩
  intro h0
  by_contra hne
  have hpos : 0 < argmax_loop v (n - 1) 1 0 (v.getD 0 0) := Nat.pos_of_ne_zero hne
  have h1 := h.2.2 0 hpos
  have h2 := h0 _ h.1
  omega

/-- Witness for C4: the output buffer `[5,5,3,0,0,0,0,0,0,0]` gives class 0, not 1. -/
theorem argmax_i8_lowest_max_witness :
    argmax_i8 [5, 5, 3, 0, 0, 0, 0, 0, 0, 0] 10 = 0 ∧
    argmax_i8 [5, 5, 3, 0, 0, 0, 0, 0, 0, 0] 10 < 10 :=
  ⟨by decide,
   (argmax_i8_lowest_max [5, 5, 3, 0, 0, 0, 0, 0, 0, 0] 10 (by decide) (by decide)).1⟩

/-! ## run_inference_on_image -/

lemma invoke_count_append (s t : List Effect) :
    invoke_count (s ++ t) = invoke_count s + invoke_count t := by
  induction s with
  | nil => simp [invoke_count]
  | cons e s ih =>
    cases e <;> simp [invoke_count, ih]
    omega

lemma invoke_count_score_loop (out : List Int) (out_zp : Int) (out_scale : ℚ) (fuel : Nat) :
    ∀ c, invoke_count (score_loop out out_zp out_scale fuel c) = 0 := by
  induction fuel with
  | zero => intro c; rfl
  | succ fuel ih => intro c; simp [score_loop, invoke_count, ih]

lemma report_lines_append (s t : List Effect) :
    report_lines (s ++ t) = report_lines s ++ report_lines t := by
  simp [report_lines]

/-- The pre-processing loop writes exactly the cells `i .. i + fuel - 1`. -/
lemma quantize_loop_spec (L : Libm) (img : List Nat) (in_scale : ℚ) (in_zp : Int)
    (fuel : Nat) :
    ∀ (i : Nat) (buf : List Int), i + fuel ≤ buf.length →
      (quantize_loop L img in_scale in_zp fuel i buf).length = buf.length ∧
      (∀ k, i ≤ k → k < i + fuel →
        (quantize_loop L img in_scale in_zp fuel i buf)[k]? =
          some (quantize_f32_to_i8 L (f32_round (i2f (img.getD k 0) / 255)) in_scale in_zp)) ∧
      (∀ k, k < i ∨ i + fuel ≤ k →
        (quantize_loop L img in_scale in_zp fuel i buf)[k]? = buf[k]?) := by
  induction fuel with
  | zero =>
    intro i buf _
    refine ⟨rfl, ?_, ?_⟩
    · intro k h1 h2
      omega
    · intro k _
      rfl
  | succ fuel ih =>
    intro i buf hlen
    simp only [quantize_loop, pixel_f32]
    have hlen2 : i + 1 + fuel ≤
        (buf.set i (quantize_f32_to_i8 L (f32_round (i2f (img.getD i 0) / 255))
          in_scale in_zp)).length := by
      rw [List.length_set]
      omega
    obtain ⟨h1, h2, h3⟩ := ih (i + 1) _ hlen2
    refine ⟨?_, ?_, ?_⟩
    · rw [h1, List.length_set]
    · intro k hk1 hk2
      rcases Nat.eq_or_lt_of_le hk1 with heq | hlt
      · subst heq
        rw [h3 i (Or.inl (by omega)), List.getElem?_set_self (by omega)]
      · exact h2 k (by omega) (by omega)
    · intro k hk
      rw [h3 k (by omega), List.getElem?_set_ne (by omega)]

lemma preprocess_input {ε : Type} (L : Libm) (img : List Nat) (in_scale : ℚ) (in_zp : Int)
    (m : Tflm ε) :
    (preprocess L img in_scale in_zp m).input =
      quantize_loop L img in_scale in_zp (28 * 28) 0 m.input := by
  simp only [preprocess]

lemma preprocess_eta {ε : Type} (L : Libm) (img : List Nat) (in_scale : ℚ) (in_zp : Int)
    (m : Tflm ε) :
    ({ m with input := (preprocess L img in_scale in_zp m).input } : Tflm ε) =
      preprocess L img in_scale in_zp m := by
  simp only [preprocess]

/-- C5: when `in_bytes < 784` or `out_bytes < 10`, `run_inference_on_image` appends
exactly one buffer-too-small error line, leaves the engine memory (input buffer
included) untouched, records no `tflm_invoke` call and emits no report line. -/
theorem run_inference_buffer_too_small {ε : Type} (P : Platform ε) (img : List Nat)
    (expected_label in_bytes out_bytes : Int) (in_scale : ℚ) (in_zp : Int) (out_scale : ℚ)
    (out_zp : Int) (w : World ε) (h : in_bytes < 784 ∨ out_bytes < 10) :
    ((run_inference_on_image P img expected_label in_bytes out_bytes in_scale in_zp
          out_scale out_zp w).trace
        = w.trace ++ [.printf "Erro: input menor que 784 bytes\n"] ∨
      (run_inference_on_image P img expected_label in_bytes out_bytes in_scale in_zp
          out_scale out_zp w).trace
        = w.trace ++ [.printf "Erro: output menor que 10 bytes\n"]) ∧
    (run_inference_on_image P img expected_label in_bytes out_bytes in_scale in_zp
        out_scale out_zp w).mem = w.mem ∧
    invoke_count (run_inference_on_image P img expected_label in_bytes out_bytes in_scale
        in_zp out_scale out_zp w).trace = invoke_count w.trace ∧
    report_lines (run_inference_on_image P img expected_label in_bytes out_bytes in_scale
        in_zp out_scale out_zp w).trace = report_lines w.trace := by
  unfold run_inference_on_image
  by_cases hin : in_bytes < 28 * 28
  · rw [if_pos hin]
    refine ⟨Or.inl rfl, rfl, ?_, ?_⟩
    · simp [World.emit, invoke_count_append, invoke_count]
    · simp [World.emit, report_lines, Effect.is_report_line]
  · have hout : out_bytes < 10 := by omega
    rw [if_neg hin, if_pos hout]
    refine ⟨Or.inr rfl, rfl, ?_, ?_⟩
    · simp [World.emit, invoke_count_append, invoke_count]
    · simp [World.emit, report_lines, Effect.is_report_line]

/-- Witness for C5: input capacity 700. -/
theorem run_inference_buffer_too_small_witness :
    ((700 : Int) < 784 ∨ (10 : Int) < 10) ∧
    (run_inference_on_image (stub_platform 0) (List.replicate 784 0) 7 700 10 (1 / 128) (-128)
        (1 / 256) (-10) stub_world).mem = stub_world.mem ∧
    invoke_count (run_inference_on_image (stub_platform 0) (List.replicate 784 0) 7 700 10
        (1 / 128) (-128) (1 / 256) (-10) stub_world).trace = invoke_count stub_world.trace :=
  ⟨Or.inl (by decide),
   (run_inference_buffer_too_small (stub_platform 0) (List.replicate 784 0) 7 700 10 (1 / 128)
      (-128) (1 / 256) (-10) stub_world (Or.inl (by decide))).2.1,
   (run_inference_buffer_too_small (stub_platform 0) (List.replicate 784 0) 7 700 10 (1 / 128)
      (-128) (1 / 256) (-10) stub_world (Or.inl (by decide))).2.2.1⟩

/-- Shape of a run whose buffer checks pass and whose `tflm_invoke` fails. -/
lemma run_inference_of_invoke_ne_zero {ε : Type} (P : Platform ε) (img : List Nat)
    (expected_label in_bytes out_bytes : Int) (in_scale : ℚ) (in_zp : Int) (out_scale : ℚ)
    (out_zp : Int) (w : World ε) (hin : 784 ≤ in_bytes) (hout : 10 ≤ out_bytes)
    (hrc : (P.tflm_invoke (preprocess P.libm img in_scale in_zp w.mem)).1 ≠ 0) :
    run_inference_on_image P img expected_label in_bytes out_bytes in_scale in_zp out_scale
        out_zp w =
      { mem := (P.tflm_invoke (preprocess P.libm img in_scale in_zp w.mem)).2,
        trace := w.trace ++
          [.tflm_invoke (preprocess P.libm img in_scale in_zp w.mem).input,
           .printf_invoke_falhou (P.tflm_invoke (preprocess P.libm img in_scale in_zp w.mem)).1] } := by
  unfold run_inference_on_image
  rw [if_neg (by omega), if_neg (by omega)]
  simp only [World.emit]
  rw [if_pos hrc, List.append_assoc]
  rfl

/-- Shape of a run whose buffer checks pass and whose `tflm_invoke` returns 0. -/
lemma run_inference_of_invoke_eq_zero {ε : Type} (P : Platform ε) (img : List Nat)
    (expected_label in_bytes out_bytes : Int) (in_scale : ℚ) (in_zp : Int) (out_scale : ℚ)
    (out_zp : Int) (w : World ε) (hin : 784 ≤ in_bytes) (hout : 10 ≤ out_bytes)
    (hrc : (P.tflm_invoke (preprocess P.libm img in_scale in_zp w.mem)).1 = 0) :
    run_inference_on_image P img expected_label in_bytes out_bytes in_scale in_zp out_scale
        out_zp w =
      { mem := (P.tflm_invoke (preprocess P.libm img in_scale in_zp w.mem)).2,
        trace := w.trace ++
          (.tflm_invoke (preprocess P.libm img in_scale in_zp w.mem).input ::
            .printf_label_esperado expected_label
              (argmax_i8 (P.tflm_invoke (preprocess P.libm img in_scale in_zp w.mem)).2.output 10) ::
            score_loop (P.tflm_invoke (preprocess P.libm img in_scale in_zp w.mem)).2.output
              out_zp out_scale 10 0) } := by
  unfold run_inference_on_image
  rw [if_neg (by omega), if_neg (by omega)]
  simp only [World.emit]
  rw [if_neg (by simpa using hrc)]
  simp

/-- C6: when the buffer checks pass, `tflm_invoke` is called exactly once, on the
pre-processed memory, and the memory afterwards is what that one call left; if it
returns `rc ≠ 0` the run appends only the invoke record and the line
"Invoke falhou: rc", so no expected/predicted line and no score line. -/
theorem run_inference_invoke_once {ε : Type} (P : Platform ε) (img : List Nat)
    (expected_label in_bytes out_bytes : Int) (in_scale : ℚ) (in_zp : Int) (out_scale : ℚ)
    (out_zp : Int) (w : World ε) (hin : 784 ≤ in_bytes) (hout : 10 ≤ out_bytes) :
    invoke_count (run_inference_on_image P img expected_label in_bytes out_bytes in_scale
        in_zp out_scale out_zp w).trace = invoke_count w.trace + 1 ∧
    (run_inference_on_image P img expected_label in_bytes out_bytes in_scale in_zp
        out_scale out_zp w).mem = (P.tflm_invoke (preprocess P.libm img in_scale in_zp w.mem)).2 ∧
    ((P.tflm_invoke (preprocess P.libm img in_scale in_zp w.mem)).1 ≠ 0 →
      (run_inference_on_image P img expected_label in_bytes out_bytes in_scale in_zp
          out_scale out_zp w).trace =
        w.trace ++
          [.tflm_invoke (preprocess P.libm img in_scale in_zp w.mem).input,
           .printf_invoke_falhou (P.tflm_invoke (preprocess P.libm img in_scale in_zp w.mem)).1] ∧
      report_lines (run_inference_on_image P img expected_label in_bytes out_bytes in_scale
          in_zp out_scale out_zp w).trace = report_lines w.trace) := by
  by_cases hrc : (P.tflm_invoke (preprocess P.libm img in_scale in_zp w.mem)).1 = 0
  · rw [run_inference_of_invoke_eq_zero P img expected_label in_bytes out_bytes in_scale in_zp
      out_scale out_zp w hin hout hrc]
    refine ⟨?_, rfl, fun h => absurd hrc h⟩
    simp [invoke_count_append, invoke_count, invoke_count_score_loop]
  · rw [run_inference_of_invoke_ne_zero P img expected_label in_bytes out_bytes in_scale in_zp
      out_scale out_zp w hin hout hrc]
    refine ⟨?_, rfl, fun _ => ⟨rfl, ?_⟩⟩
    · simp [invoke_count_append, invoke_count]
    · simp [report_lines, Effect.is_report_line]

/-- Witness for C6: an engine whose `tflm_invoke` returns -3. -/
theorem run_inference_invoke_once_witness :
    (run_inference_on_image (stub_platform (-3)) (List.replicate 784 0) 7 784 10 (1 / 128)
        (-128) (1 / 256) (-10) stub_world).trace =
      stub_world.trace ++
        [.tflm_invoke (preprocess (stub_platform (-3)).libm (List.replicate 784 0) (1 / 128)
            (-128) stub_world.mem).input,
         .printf_invoke_falhou (-3)] :=
  ((run_inference_invoke_once (stub_platform (-3)) (List.replicate 784 0) 7 784 10 (1 / 128)
      (-128) (1 / 256) (-10) stub_world (by decide) (by decide)).2.2 (by decide)).1

/-- C7: for a 784-sample image and an input tensor of capacity `in_bytes ≥ 784` (and
`out_bytes ≥ 10`, so that the engine is reached), the input tensor at the `tflm_invoke`
call holds `quantize(image[i] / 255, in_scale, in_zp)` at every `i < 784` (the pixel
converted to float and divided by 255 in binary32), has its length unchanged, and holds
its previous content at every index `≥ 784`. -/
theorem run_inference_input_at_invoke {ε : Type} (P : Platform ε) (img : List Nat)
    (expected_label in_bytes out_bytes : Int) (in_scale : ℚ) (in_zp : Int) (out_scale : ℚ)
    (out_zp : Int) (w : World ε) (_himg : img.length = 784)
    (hcap : (w.mem.input.length : Int) = in_bytes) (hin : 784 ≤ in_bytes)
    (hout : 10 ≤ out_bytes) :
    ∃ (snap : List Int) (rest : List Effect),
      (run_inference_on_image P img expected_label in_bytes out_bytes in_scale in_zp
          out_scale out_zp w).trace = w.trace ++ .tflm_invoke snap :: rest ∧
      invoke_count rest = 0 ∧
      (run_inference_on_image P img expected_label in_bytes out_bytes in_scale in_zp
          out_scale out_zp w).mem = (P.tflm_invoke { w.mem with input := snap }).2 ∧
      snap.length = w.mem.input.length ∧
      (∀ i, i < 784 →
        snap[i]? = some (quantize_f32_to_i8 P.libm (f32_round (i2f (img.getD i 0) / 255))
          in_scale in_zp)) ∧
      (∀ i, 784 ≤ i → snap[i]? = w.mem.input[i]?) := by
  have hlen : 0 + 28 * 28 ≤ w.mem.input.length := by omega
  obtain ⟨h1, h2, h3⟩ :=
    quantize_loop_spec P.libm img in_scale in_zp (28 * 28) 0 w.mem.input hlen
  rw [← preprocess_input] at h1 h2 h3
  have hsnap : (∀ i, i < 784 → (preprocess P.libm img in_scale in_zp w.mem).input[i]? =
        some (quantize_f32_to_i8 P.libm (f32_round (i2f (img.getD i 0) / 255))
          in_scale in_zp)) ∧
      (∀ i, 784 ≤ i →
        (preprocess P.libm img in_scale in_zp w.mem).input[i]? = w.mem.input[i]?) :=
    ⟨fun i hi => h2 i (by omega) (by omega), fun i hi => h3 i (Or.inr (by omega))⟩
  have hmem : (P.tflm_invoke (preprocess P.libm img in_scale in_zp w.mem)).2 =
      (P.tflm_invoke
        { w.mem with input := (preprocess P.libm img in_scale in_zp w.mem).input }).2 := by
    rw [preprocess_eta]
  by_cases hrc : (P.tflm_invoke (preprocess P.libm img in_scale in_zp w.mem)).1 = 0
  · rw [run_inference_of_invoke_eq_zero P img expected_label in_bytes out_bytes in_scale in_zp
      out_scale out_zp w hin hout hrc]
    refine ⟨(preprocess P.libm img in_scale in_zp w.mem).input, _, rfl, ?_, hmem, h1,
      hsnap.1, hsnap.2⟩
    simp [invoke_count, invoke_count_score_loop]
  · rw [run_inference_of_invoke_ne_zero P img expected_label in_bytes out_bytes in_scale in_zp
      out_scale out_zp w hin hout hrc]
    refine ⟨(preprocess P.libm img in_scale in_zp w.mem).input, _, rfl, ?_, hmem, h1,
      hsnap.1, hsnap.2⟩
    simp [invoke_count]

/-- Witness for C7: a blank image, scale 1/128 and zero-point -128 give -128 in cell 0
of the 784-byte input tensor seen by the engine. -/
theorem run_inference_input_at_invoke_witness :
    ∃ snap : List Int, snap.length = 784 ∧ snap[0]? = some (-128) := by
  obtain ⟨snap, _, _, _, _, h4, h5, _⟩ :=
    run_inference_input_at_invoke (stub_platform 0) (List.replicate 784 0) 7 784 10 (1 / 128)
      (-128) (1 / 256) (-10) stub_world (List.length_replicate 784 0)
      (by exact_mod_cast List.length_replicate 784 (0 : Int)) (by decide) (by decide)
  refine ⟨snap, ?_, ?_⟩
  · exact h4.trans (List.length_replicate 784 0)
  · rw [h5 0 (by decide)]
    have hz : (List.replicate 784 0).getD 0 0 = 0 := by decide
    have hp : f32_round (i2f ((List.replicate 784 0).getD 0 0 : Nat) / 255) = 0 := by
      rw [hz]
      simp [i2f, f32_round_zero]
    have hq : f32_round ((0 : ℚ) / (1 / 128)) = 0 := by
      rw [zero_div, f32_round_zero]
    have hr : lround_exact (0 : ℚ) = 0 := by
      norm_num [lround_exact]
    rw [hp, quantize_eq_ite (stub_platform 0).libm (by decide) _ _ _
      (by rw [hq, hr]; decide) (by rw [hq, hr]; decide), hq, hr]
    norm_num

/-! ## The command loop -/

/-- The comparisons of the command loop agree with the documented table on every byte. -/
lemma dispatch_table (b : Nat) (hb : b < 256) :
    (documented_action b = .ignore ↔ ((b : Int) = ord '\r' ∨ (b : Int) = ord '\n')) ∧
    (documented_action b = .help ↔ ((b : Int) = ord 'h' ∨ (b : Int) = ord 'H')) ∧
    (documented_action b = .render ↔ ((b : Int) = ord 'p' ∨ (b : Int) = ord 'P')) ∧
    (documented_action b = .run_all ↔ ((b : Int) = ord 'a' ∨ (b : Int) = ord 'A')) ∧
    (documented_action b = .select_run (b - 48) ↔
      ((b : Int) ≥ ord '0' ∧ (b : Int) ≤ ord '9')) := by
  interval_cases b <;> decide

lemma documented_action_cases (b : Nat) :
    documented_action b = .ignore ∨ documented_action b = .help ∨
    documented_action b = .render ∨ documented_action b = .run_all ∨
    documented_action b = .select_run (b - 48) ∨ documented_action b = .unknown b := by
  unfold documented_action
  split_ifs <;> simp

lemma ord_values :
    ord '\r' = 13 ∧ ord '\n' = 10 ∧ ord 'h' = 104 ∧ ord 'H' = 72 ∧ ord 'p' = 112 ∧
    ord 'P' = 80 ∧ ord 'a' = 97 ∧ ord 'A' = 65 ∧ ord '0' = 48 ∧ ord '9' = 57 := by
  decide

lemma main_loop_body_help {ε : Type} (P : Platform ε) (s : MainState ε) (ch : Int)
    (hne : ch ≠ P.PICO_ERROR_TIMEOUT) (h : ch = ord 'h' ∨ ch = ord 'H') :
    main_loop_body P ch s = cmd_help s := by
  obtain ⟨e1, e2, e3, e4, -⟩ := ord_values
  unfold main_loop_body
  rw [if_neg hne, if_neg (by omega), if_pos h]

lemma main_loop_body_print {ε : Type} (P : Platform ε) (s : MainState ε) (ch : Int)
    (hne : ch ≠ P.PICO_ERROR_TIMEOUT) (h : ch = ord 'p' ∨ ch = ord 'P') :
    main_loop_body P ch s = cmd_print P s := by
  obtain ⟨e1, e2, e3, e4, e5, e6, -⟩ := ord_values
  unfold main_loop_body
  rw [if_neg hne, if_neg (by omega), if_neg (by omega), if_pos h]

lemma main_loop_body_auto {ε : Type} (P : Platform ε) (s : MainState ε) (ch : Int)
    (hne : ch ≠ P.PICO_ERROR_TIMEOUT) (h : ch = ord 'a' ∨ ch = ord 'A') :
    main_loop_body P ch s = cmd_auto P s := by
  obtain ⟨e1, e2, e3, e4, e5, e6, e7, e8, -⟩ := ord_values
  unfold main_loop_body
  rw [if_neg hne, if_neg (by omega), if_neg (by omega), if_neg (by omega), if_pos h]

lemma main_loop_body_digit {ε : Type} (P : Platform ε) (s : MainState ε) (ch : Int)
    (hne : ch ≠ P.PICO_ERROR_TIMEOUT) (h : ch ≥ ord '0' ∧ ch ≤ ord '9') :
    main_loop_body P ch s = cmd_digit P ch s := by
  obtain ⟨e1, e2, e3, e4, e5, e6, e7, e8, e9, e10⟩ := ord_values
  unfold main_loop_body
  rw [if_neg hne, if_neg (by omega), if_neg (by omega), if_neg (by omega),
    if_neg (by omega), if_pos h]

/-! ## The glyph table -/

/-- C9 as stated fails at the lower bounds: intensity 200 is drawn `*`, not `#` (and
120, 60, 20 are drawn `:`, `.`, blank). -/
theorem glyph_threshold_counterexample :
    (200 : Nat) ≥ 200 ∧ glyph 200 ≠ '#' ∧ glyph 200 = '*' ∧ glyph 120 = ':' ∧
    glyph 60 = '.' ∧ glyph 20 = ' ' := by
  decide

/-- C9 (amended): the thresholds 20/60/120/200 are exclusive at their lower bound:
`#` if `v > 200`, `*` if `120 < v ≤ 200`, `:` if `60 < v ≤ 120`, `.` if `20 < v ≤ 60`,
and blank if `v ≤ 20`. -/
theorem glyph_table (v : Nat) :
    (200 < v → glyph v = '#') ∧
    (120 < v ∧ v ≤ 200 → glyph v = '*') ∧
    (60 < v ∧ v ≤ 120 → glyph v = ':') ∧
    (20 < v ∧ v ≤ 60 → glyph v = '.') ∧
    (v ≤ 20 → glyph v = ' ') := by
  unfold glyph
  refine ⟨?_, ?_, ?_, ?_, ?_⟩
  · intro h
    rw [if_pos h]
  · rintro ⟨h1, h2⟩
    rw [if_neg (by omega), if_pos h1]
  · rintro ⟨h1, h2⟩
    rw [if_neg (by omega), if_neg (by omega), if_pos h1]
  · rintro ⟨h1, h2⟩
    rw [if_neg (by omega), if_neg (by omega), if_neg (by omega), if_pos h1]
  · intro h
    rw [if_neg (by omega), if_neg (by omega), if_neg (by omega), if_neg (by omega)]

/-! ## The cursor `current_idx` -/

lemma main_setup_current_idx {ε : Type} (P : Platform ε) (w : World ε) (s0 : MainState ε)
    (h0 : main_setup P w = .ok s0) : s0.current_idx = 7 := by
  unfold main_setup at h0
  simp only at h0
  split_ifs at h0 with h1 h2 h3
  · exact absurd h3 (by decide)
  · injection h0 with h0
    rw [← h0]

/-- One iteration of the command loop keeps `current_idx` within `0..9`. -/
lemma main_loop_body_current_idx {ε : Type} (P : Platform ε) (ch : Int) (s : MainState ε)
    (h : 0 ≤ s.current_idx ∧ s.current_idx ≤ 9) :
    0 ≤ (main_loop_body P ch s).current_idx ∧ (main_loop_body P ch s).current_idx ≤ 9 := by
  have h0 : ord '0' = 48 := by decide
  have h9 : ord '9' = 57 := by decide
  unfold main_loop_body
  split_ifs with c1 c2 c3 c4 c5 c6
  · exact h
  · exact h
  · exact h
  · exact h
  · exact h
  · simp only [cmd_digit]
    omega
  · exact h

lemma main_loop_current_idx {ε : Type} (P : Platform ε) (inputs : List Int) :
    ∀ s : MainState ε, 0 ≤ s.current_idx ∧ s.current_idx ≤ 9 →
      0 ≤ (main_loop P inputs s).current_idx ∧ (main_loop P inputs s).current_idx ≤ 9 := by
  induction inputs with
  | nil =>
    intro s h
    exact h
  | cons ch rest ih =>
    intro s h
    exact ih _ (main_loop_body_current_idx P ch s h)

/-- C10: the command loop is entered with `current_idx = 7`, and after any finite
sequence of `getchar_timeout_us` results (bytes or timeouts, whatever the engine does)
`0 ≤ current_idx ≤ 9`, so the index used by `mnist_images[current_idx]` and
`mnist_labels[current_idx]` is inside the ten-entry tables. -/
theorem current_idx_in_range {ε : Type} (P : Platform ε) (w : World ε) (s0 : MainState ε)
    (inputs : List Int) (h0 : main_setup P w = .ok s0)
    (himg : P.mnist_images.length = 10) (hlab : P.mnist_labels.length = 10) :
    s0.current_idx = 7 ∧
    0 ≤ (main_loop P inputs s0).current_idx ∧ (main_loop P inputs s0).current_idx ≤ 9 ∧
    (main_loop P inputs s0).current_idx.toNat < P.mnist_images.length ∧
    (main_loop P inputs s0).current_idx.toNat < P.mnist_labels.length := by
  have h7 := main_setup_current_idx P w s0 h0
  have hr := main_loop_current_idx P inputs s0 (by omega)
  refine ⟨h7, hr.1, hr.2, ?_, ?_⟩ <;> omega


/-- Witness for C10: the stub platform starts the loop, and the inputs `'3'`, timeout,
`'x'`, `'a'` leave the cursor in range. -/
theorem current_idx_in_range_witness :
    ∃ s0 : MainState Unit, main_setup (stub_platform 0) stub_world = .ok s0 ∧
      s0.current_idx = 7 ∧
      0 ≤ (main_loop (stub_platform 0) [51, -1, 120, 97] s0).current_idx ∧
      (main_loop (stub_platform 0) [51, -1, 120, 97] s0).current_idx ≤ 9 := by
  have h : ∃ s0, main_setup (stub_platform 0) stub_world = .ok s0 := by
    unfold main_setup
    simp only
    rw [if_neg (by decide), if_neg (by decide)]
    exact ⟨_, rfl⟩
  obtain ⟨s0, h⟩ := h
  have hthm := current_idx_in_range (stub_platform 0) stub_world s0 [51, -1, 120, 97] h
    (List.length_replicate 10 _) rfl
  exact ⟨s0, h, hthm.1, hthm.2.1, hthm.2.2.1⟩

/-! ## The effect of one dispatcher step on the cursor -/

/-- The digit branch with the subtraction `ch - '0'` carried out. -/
lemma cmd_digit_ord_add {ε : Type} (P : Platform ε) (s : MainState ε) (d : Nat) :
    (cmd_digit P (ord '0' + d) s).current_idx = d ∧
    (cmd_digit P (ord '0' + d) s).world =
      run_inference_on_image P (P.mnist_images.getD d []) (P.mnist_labels.getD d 0)
        s.in_bytes s.out_bytes s.in_scale s.in_zp s.out_scale s.out_zp
        (s.world.emit (.printf_rodando_idx d (P.mnist_labels.getD d 0))) := by
  have h : ord '0' + (d : Int) - ord '0' = (d : Int) := by omega
  simp only [cmd_digit, run_sample, h, Int.toNat_ofNat, and_self]

/-- C11: a step on the digit byte `'0' + d` sets `current_idx` to `d` and runs the
pipeline on `mnist_images[d]` with expected label `mnist_labels[d]` (after the
"Rodando" line); a step on any other input (timeout, or any value that is not a digit)
leaves `current_idx` unchanged, in particular the `a`/`A` run over indices 0..9. -/
theorem dispatcher_step_cursor {ε : Type} (P : Platform ε) (s : MainState ε)
    (ht : P.PICO_ERROR_TIMEOUT < 0) :
    (∀ d : Nat, d ≤ 9 →
      (main_loop_body P (ord '0' + d) s).current_idx = d ∧
      (main_loop_body P (ord '0' + d) s).world =
        run_inference_on_image P (P.mnist_images.getD d []) (P.mnist_labels.getD d 0)
          s.in_bytes s.out_bytes s.in_scale s.in_zp s.out_scale s.out_zp
          (s.world.emit (.printf_rodando_idx d (P.mnist_labels.getD d 0)))) ∧
    (∀ ch : Int, (ch = P.PICO_ERROR_TIMEOUT ∨ ¬ (ord '0' ≤ ch ∧ ch ≤ ord '9')) →
      (main_loop_body P ch s).current_idx = s.current_idx) ∧
    (main_loop_body P (ord 'a') s).current_idx = s.current_idx ∧
    (main_loop_body P (ord 'A') s).current_idx = s.current_idx := by
  obtain ⟨e1, e2, e3, e4, e5, e6, e7, e8, e9, e10⟩ := ord_values
  have hother : ∀ ch : Int, (ch = P.PICO_ERROR_TIMEOUT ∨ ¬ (ord '0' ≤ ch ∧ ch ≤ ord '9')) →
      (main_loop_body P ch s).current_idx = s.current_idx := by
    intro ch hch
    unfold main_loop_body
    split_ifs with c1 c2 c3 c4 c5 c6
    · rfl
    · rfl
    · rfl
    · rfl
    · rfl
    · rcases hch with h | h
      · exact absurd h c1
      · exact absurd ⟨c6.1, c6.2⟩ h
    · rfl
  refine ⟨?_, hother, hother _ (Or.inr (by omega)), hother _ (Or.inr (by omega))⟩
  intro d hd
  rw [main_loop_body_digit P s (ord '0' + d) (by omega) (by omega)]
  exact cmd_digit_ord_add P s d

/-- Witness for C11: the byte `'3'` on the stub platform moves the cursor from 7 to 3. -/
theorem dispatcher_step_cursor_witness :
    stub_state.current_idx = 7 ∧
    (main_loop_body (stub_platform 0) (ord '0' + (3 : Nat)) stub_state).current_idx = (3 : Nat) :=
  ⟨rfl, ((dispatcher_step_cursor (stub_platform 0) stub_state (by decide)).1 3 (by decide)).1⟩

/-! ## The report block of a successful run -/

lemma score_loop_eq_map (out : List Int) (out_zp : Int) (out_scale : ℚ) (fuel : Nat) :
    ∀ c, score_loop out out_zp out_scale fuel c =
      (List.range' c fuel).map (fun k : Nat =>
        Effect.printf_score k (out.getD k 0)
          (f32_round (f32_round ((out.getD k 0 - out_zp : Int) : ℚ) * out_scale))) := by
  induction fuel with
  | zero =>
    intro c
    rfl
  | succ fuel ih =>
    intro c
    simp only [score_loop, List.range'_succ, List.map_cons, ih, dequant_score, i2f]

lemma report_lines_score_loop (out : List Int) (out_zp : Int) (out_scale : ℚ) (fuel : Nat) :
    ∀ c, report_lines (score_loop out out_zp out_scale fuel c) =
      score_loop out out_zp out_scale fuel c := by
  induction fuel with
  | zero =>
    intro c
    rfl
  | succ fuel ih =>
    intro c
    have h := ih (c + 1)
    unfold report_lines at h ⊢
    simp only [score_loop, List.filter_cons, Effect.is_report_line, if_true, h]

/-- C14: for a run whose buffer checks pass and whose `tflm_invoke` returns 0, what the
run prints is one line with the expected label passed in and the predicted class
`argmax_i8 out 10`, followed by exactly ten score lines, for `c = 0..9` in ascending
order, each with `c`, the raw value `out[c]` and `(out[c] - out_zp) * out_scale`, where
`out` is the output tensor left by the engine. -/
theorem run_inference_report_block {ε : Type} (P : Platform ε) (img : List Nat)
    (expected_label in_bytes out_bytes : Int) (in_scale : ℚ) (in_zp : Int) (out_scale : ℚ)
    (out_zp : Int) (w : World ε) (hin : 784 ≤ in_bytes) (hout : 10 ≤ out_bytes)
    (hrc : (P.tflm_invoke (preprocess P.libm img in_scale in_zp w.mem)).1 = 0) :
    (run_inference_on_image P img expected_label in_bytes out_bytes in_scale in_zp
        out_scale out_zp w).trace =
      w.trace ++
        Effect.tflm_invoke (preprocess P.libm img in_scale in_zp w.mem).input ::
        Effect.printf_label_esperado expected_label
          (argmax_i8 (P.tflm_invoke (preprocess P.libm img in_scale in_zp w.mem)).2.output 10) ::
        (List.range 10).map (fun c : Nat =>
          Effect.printf_score c
            ((P.tflm_invoke (preprocess P.libm img in_scale in_zp w.mem)).2.output.getD c 0)
            (f32_round (f32_round
              (((P.tflm_invoke (preprocess P.libm img in_scale in_zp w.mem)).2.output.getD c 0
                - out_zp : Int) : ℚ) * out_scale))) ∧
    report_lines (run_inference_on_image P img expected_label in_bytes out_bytes in_scale
        in_zp out_scale out_zp w).trace =
      report_lines w.trace ++
        Effect.printf_label_esperado expected_label
          (argmax_i8 (P.tflm_invoke (preprocess P.libm img in_scale in_zp w.mem)).2.output 10) ::
        (List.range 10).map (fun c : Nat =>
          Effect.printf_score c
            ((P.tflm_invoke (preprocess P.libm img in_scale in_zp w.mem)).2.output.getD c 0)
            (f32_round (f32_round
              (((P.tflm_invoke (preprocess P.libm img in_scale in_zp w.mem)).2.output.getD c 0
                - out_zp : Int) : ℚ) * out_scale))) ∧
    ((List.range 10).map (fun c : Nat =>
          Effect.printf_score c
            ((P.tflm_invoke (preprocess P.libm img in_scale in_zp w.mem)).2.output.getD c 0)
            (f32_round (f32_round
              (((P.tflm_invoke (preprocess P.libm img in_scale in_zp w.mem)).2.output.getD c 0
                - out_zp : Int) : ℚ) * out_scale)))).length = 10 := by
  rw [run_inference_of_invoke_eq_zero P img expected_label in_bytes out_bytes in_scale in_zp
    out_scale out_zp w hin hout hrc]
  have hmap := score_loop_eq_map (P.tflm_invoke (preprocess P.libm img in_scale in_zp w.mem)).2.output
    out_zp out_scale 10 0
  rw [← List.range_eq_range'] at hmap
  rw [← hmap]
  refine ⟨rfl, ?_, ?_⟩
  · rw [report_lines_append]
    congr 1
  · rw [hmap, List.length_map, List.length_range]

/-- Witness for C14: the stub engine on the stub world. -/
theorem run_inference_report_block_witness :
    report_lines (run_inference_on_image (stub_platform 0) (List.replicate 784 0) 7 784 10
        (1 / 128) (-128) (1 / 256) (-10) stub_world).trace =
      report_lines stub_world.trace ++
        Effect.printf_label_esperado 7 (argmax_i8 stub_output 10) ::
        (List.range 10).map (fun c : Nat =>
          Effect.printf_score c (stub_output.getD c 0)
            (f32_round (f32_round ((stub_output.getD c 0 - (-10) : Int) : ℚ) * (1 / 256)))) :=
  (run_inference_report_block (stub_platform 0) (List.replicate 784 0) 7 784 10 (1 / 128)
    (-128) (1 / 256) (-10) stub_world (by decide) (by decide) rfl).2.1

/-! ## End-to-end run on the digit `'7'` -/

lemma getD_of_take_eq (l t : List Int) (n : Nat) (h : l.take n = t) (c : Nat) (hc : c < n) :
    l.getD c 0 = t.getD c 0 := by
  rw [List.getD_eq_getElem?_getD, List.getD_eq_getElem?_getD, ← h,
    List.getElem?_take_of_lt hc]

/-- On an output tensor that starts with `stub_output` the predicted class is 7. -/
lemma argmax_i8_of_stub_output (out : List Int) (h : out.take 10 = stub_output) :
    argmax_i8 out 10 = 7 := by
  have hs := argmax_loop_spec out 9 1 0 (out.getD 0 0) (by omega) rfl
    (by
      intro k hk
      have : k = 0 := by omega
      rw [this])
    (by
      intro j hj
      omega)
  obtain ⟨hb, hmax, -⟩ := hs
  have h7 := hmax 7 (by omega)
  rw [getD_of_take_eq out stub_output 10 h 7 (by omega),
    getD_of_take_eq out stub_output 10 h _ hb] at h7
  show argmax_loop out 9 1 0 (out.getD 0 0) = 7
  generalize argmax_loop out 9 1 0 (out.getD 0 0) = b at hb h7
  have hb10 : b < 10 := by omega
  clear hb
  interval_cases b <;> first | rfl | exact absurd h7 (by decide)

lemma score_loop_of_stub_output (out : List Int) (h : out.take 10 = stub_output) :
    score_loop out (-10) 0.00390625 10 0 =
      [.printf_score 0 (-10) 0, .printf_score 1 (-10) 0, .printf_score 2 (-10) 0,
       .printf_score 3 (-10) 0, .printf_score 4 (-10) 0, .printf_score 5 (-10) 0,
       .printf_score 6 (-10) 0, .printf_score 7 90 0.390625, .printf_score 8 (-10) 0,
       .printf_score 9 (-10) 0] := by
  have hg := getD_of_take_eq out stub_output 10 h
  have g0 : out.getD 0 0 = -10 := hg 0 (by omega)
  have g1 : out.getD 1 0 = -10 := hg 1 (by omega)
  have g2 : out.getD 2 0 = -10 := hg 2 (by omega)
  have g3 : out.getD 3 0 = -10 := hg 3 (by omega)
  have g4 : out.getD 4 0 = -10 := hg 4 (by omega)
  have g5 : out.getD 5 0 = -10 := hg 5 (by omega)
  have g6 : out.getD 6 0 = -10 := hg 6 (by omega)
  have g7 : out.getD 7 0 = 90 := hg 7 (by omega)
  have g8 : out.getD 8 0 = -10 := hg 8 (by omega)
  have g9 : out.getD 9 0 = -10 := hg 9 (by omega)
  have h100 : f32_round (100 : ℚ) = 100 := by
    rw [f32_round_of_pos _ 6 (by norm_num) (by norm_num) (by norm_num)]
    norm_num [round_half_even]
  have hs7 : f32_round (25 / 64 : ℚ) = 25 / 64 := by
    rw [f32_round_of_pos _ (-2) (by norm_num) (by norm_num) (by norm_num)]
    norm_num [round_half_even]
  simp only [score_loop, dequant_score, i2f, Nat.zero_add, Nat.reduceAdd, g0, g1, g2, g3, g4,
    g5, g6, g7, g8, g9]
  norm_num [f32_round_zero, h100, hs7]

/-- C13: with `mnist_labels[7] = 7`, capacities `≥ 784` and `≥ 10`, input parameters
`(0.0078125, -128)`, output parameters `(0.00390625, -10)` and an engine whose
`tflm_invoke` always returns 0 and leaves `[-10,-10,-10,-10,-10,-10,-10,90,-10,-10]` at
the start of the output tensor, the byte `'7'` from any state sets the cursor to 7 and
prints the line for sample 7, then the report with expected label 7, predicted class 7,
score `(90 - (-10)) * 0.00390625 = 0.390625` for class 7 and score 0 for every other
class. -/
theorem end_to_end_digit_seven {ε : Type} (P : Platform ε) (s : MainState ε)
    (ht : P.PICO_ERROR_TIMEOUT < 0) (hlab : P.mnist_labels.getD 7 0 = 7)
    (hin : 784 ≤ s.in_bytes) (hout : 10 ≤ s.out_bytes)
    (_his : s.in_scale = 0.0078125) (_hiz : s.in_zp = -128)
    (hos : s.out_scale = 0.00390625) (hoz : s.out_zp = -10)
    (hrc : ∀ m, (P.tflm_invoke m).1 = 0)
    (hinv : ∀ m, (P.tflm_invoke m).2.output.take 10 = stub_output) :
    (main_loop_body P (ord '7') s).current_idx = 7 ∧
    (∃ snap : List Int,
      (main_loop_body P (ord '7') s).world.trace =
        s.world.trace ++
          [.printf_rodando_idx 7 7, .tflm_invoke snap, .printf_label_esperado 7 7,
           .printf_score 0 (-10) 0, .printf_score 1 (-10) 0, .printf_score 2 (-10) 0,
           .printf_score 3 (-10) 0, .printf_score 4 (-10) 0, .printf_score 5 (-10) 0,
           .printf_score 6 (-10) 0, .printf_score 7 90 0.390625, .printf_score 8 (-10) 0,
           .printf_score 9 (-10) 0]) ∧
    ((90 - (-10) : Int) : ℚ) * 0.00390625 = 0.390625 := by
  obtain ⟨e1, e2, e3, e4, e5, e6, e7, e8, e9, e10⟩ := ord_values
  have h7 : ord '7' = ord '0' + ((7 : Nat) : Int) := by decide
  have hbody : main_loop_body P (ord '7') s = cmd_digit P (ord '0' + ((7 : Nat) : Int)) s := by
    rw [h7]
    exact main_loop_body_digit P s _ (by omega) (by omega)
  obtain ⟨hidx, hworld⟩ := cmd_digit_ord_add P s 7
  rw [hbody]
  refine ⟨hidx, ?_, by norm_num⟩
  have hrun := run_inference_of_invoke_eq_zero P (P.mnist_images.getD 7 []) 7 s.in_bytes
    s.out_bytes s.in_scale s.in_zp s.out_scale s.out_zp
    (s.world.emit (.printf_rodando_idx ((7 : Nat) : Int) 7)) hin hout (hrc _)
  rw [hworld, hlab, hrun]
  refine ⟨(preprocess P.libm (P.mnist_images.getD 7 []) s.in_scale s.in_zp s.world.mem).input, ?_⟩
  simp only [World.emit]
  rw [hos, hoz, argmax_i8_of_stub_output _ (hinv _), score_loop_of_stub_output _ (hinv _),
    List.append_assoc]
  rfl

/-- Witness for C13: the stub platform and the stub state. -/
theorem end_to_end_digit_seven_witness :
    ∃ snap : List Int,
      (main_loop_body (stub_platform 0) (ord '7') stub_state).world.trace =
        stub_state.world.trace ++
          [.printf_rodando_idx 7 7, .tflm_invoke snap, .printf_label_esperado 7 7,
           .printf_score 0 (-10) 0, .printf_score 1 (-10) 0, .printf_score 2 (-10) 0,
           .printf_score 3 (-10) 0, .printf_score 4 (-10) 0, .printf_score 5 (-10) 0,
           .printf_score 6 (-10) 0, .printf_score 7 90 0.390625, .printf_score 8 (-10) 0,
           .printf_score 9 (-10) 0] :=
  (end_to_end_digit_seven (stub_platform 0) stub_state (by decide) (by decide) (by decide)
    (by decide) (by norm_num [stub_state]) rfl (by norm_num [stub_state]) rfl
    (fun _ => rfl) (fun _ => rfl)).2.1

/-! ## print_image_ascii -/

lemma print_row_eq_map (img : List Nat) (y fuel : Nat) :
    ∀ x, print_row img y fuel x =
      (List.range' x fuel).map (fun k : Nat => Effect.printf_c (glyph (img.getD (y * 28 + k) 0))) := by
  induction fuel with
  | zero =>
    intro x
    rfl
  | succ fuel ih =>
    intro x
    simp only [print_row, List.range'_succ, List.map_cons, ih]

lemma print_rows_eq_flatten (img : List Nat) (fuel : Nat) :
    ∀ y, print_rows img fuel y =
      ((List.range' y fuel).map (fun r : Nat =>
        (List.range 28).map (fun k : Nat => Effect.printf_c (glyph (img.getD (r * 28 + k) 0)))
          ++ [Effect.printf "\n"])).flatten := by
  induction fuel with
  | zero =>
    intro y
    rfl
  | succ fuel ih =>
    intro y
    simp only [print_rows, List.range'_succ, List.map_cons, List.flatten_cons, ih,
      print_row_eq_map, List.range_eq_range', List.append_assoc, List.singleton_append]

/-- C17: for a 784-sample image `print_image_ascii` prints 28 lines, line `y` being the 28
glyphs of pixels `image[y*28 + x]`, `x = 0..27`, followed by a newline; the indices read
are exactly `0..783`, all inside the image; the output depends on nothing else and the
engine memory is untouched. -/
theorem print_image_ascii_lines {ε : Type} (img : List Nat) (w : World ε)
    (himg : img.length = 784) :
    (print_image_ascii img w).trace =
      w.trace ++ ((List.range 28).map (fun y : Nat =>
        (List.range 28).map (fun x : Nat => Effect.printf_c (glyph (img.getD (y * 28 + x) 0)))
          ++ [Effect.printf "\n"])).flatten ∧
    (print_image_ascii img w).mem = w.mem ∧
    (∀ y x, y < 28 → x < 28 → y * 28 + x < img.length) ∧
    (∀ i, i < 784 → ∃ y x, y < 28 ∧ x < 28 ∧ y * 28 + x = i) ∧
    (∀ img' : List Nat, (∀ i, i < 784 → img'.getD i 0 = img.getD i 0) →
      print_image_ascii img' w = print_image_ascii img w) := by
  refine ⟨?_, rfl, ?_, ?_, ?_⟩
  · simp only [print_image_ascii, print_rows_eq_flatten, ← List.range_eq_range']
  · intro y x hy hx
    omega
  · intro i hi
    exact ⟨i / 28, i % 28, by omega, by omega, by omega⟩
  · intro img' h
    simp only [print_image_ascii, print_rows_eq_flatten, ← List.range_eq_range']
    congr 3
    apply List.map_congr_left
    intro y hy
    congr 1
    apply List.map_congr_left
    intro x hx
    rw [List.mem_range] at hy hx
    rw [h (y * 28 + x) (by omega)]

/-- Witness for C17: a blank 28x28 image on the stub world. -/
theorem print_image_ascii_lines_witness :
    (print_image_ascii (List.replicate 784 0) stub_world).trace =
      stub_world.trace ++ ((List.range 28).map (fun y : Nat =>
        (List.range 28).map (fun x : Nat =>
            Effect.printf_c (glyph ((List.replicate 784 0).getD (y * 28 + x) 0)))
          ++ [Effect.printf "\n"])).flatten :=
  (print_image_ascii_lines (List.replicate 784 0) stub_world (List.length_replicate 784 0)).1

/-! ## The automatic test `a` -/

lemma auto_loop_eq_foldl {ε : Type} (P : Platform ε) (s : MainState ε) (fuel : Nat) :
    ∀ (i : Nat) (w : World ε),
      auto_loop P s fuel i w = (List.range' i fuel).foldl (auto_iteration P s) w := by
  induction fuel with
  | zero =>
    intro i w
    rfl
  | succ fuel ih =>
    intro i w
    simp only [auto_loop, List.range'_succ, List.foldl_cons, ih, auto_iteration, run_sample,
      Int.toNat_ofNat]

/-- An iteration whose run passes the buffer checks and whose `tflm_invoke` returns 0. -/
lemma auto_iteration_of_invoke_eq_zero {ε : Type} (P : Platform ε) (s : MainState ε)
    (w : World ε) (i : Nat) (hin : 784 ≤ s.in_bytes) (hout : 10 ≤ s.out_bytes)
    (hrc : (P.tflm_invoke
      (preprocess P.libm (P.mnist_images.getD i []) s.in_scale s.in_zp w.mem)).1 = 0) :
    (auto_iteration P s w i).trace =
      w.trace ++
        (Effect.printf_teste_idx i (P.mnist_labels.getD i 0) ::
          Effect.tflm_invoke
            (preprocess P.libm (P.mnist_images.getD i []) s.in_scale s.in_zp w.mem).input ::
          Effect.printf_label_esperado (P.mnist_labels.getD i 0)
            (argmax_i8 (P.tflm_invoke
              (preprocess P.libm (P.mnist_images.getD i []) s.in_scale s.in_zp w.mem)).2.output 10) ::
          score_loop (P.tflm_invoke
              (preprocess P.libm (P.mnist_images.getD i []) s.in_scale s.in_zp w.mem)).2.output
            s.out_zp s.out_scale 10 0) ++ [Effect.sleep_ms 200] := by
  unfold auto_iteration
  rw [run_inference_of_invoke_eq_zero P _ _ s.in_bytes s.out_bytes s.in_scale s.in_zp
    s.out_scale s.out_zp (w.emit (.printf_teste_idx i (P.mnist_labels.getD i 0))) hin hout hrc]
  simp [World.emit]

/-- An iteration whose run passes the buffer checks and whose `tflm_invoke` fails. -/
lemma auto_iteration_of_invoke_ne_zero {ε : Type} (P : Platform ε) (s : MainState ε)
    (w : World ε) (i : Nat) (hin : 784 ≤ s.in_bytes) (hout : 10 ≤ s.out_bytes)
    (hrc : (P.tflm_invoke
      (preprocess P.libm (P.mnist_images.getD i []) s.in_scale s.in_zp w.mem)).1 ≠ 0) :
    (auto_iteration P s w i).trace =
      w.trace ++
        [Effect.printf_teste_idx i (P.mnist_labels.getD i 0),
         Effect.tflm_invoke
           (preprocess P.libm (P.mnist_images.getD i []) s.in_scale s.in_zp w.mem).input,
         Effect.printf_invoke_falhou (P.tflm_invoke
           (preprocess P.libm (P.mnist_images.getD i []) s.in_scale s.in_zp w.mem)).1,
         Effect.sleep_ms 200] := by
  unfold auto_iteration
  rw [run_inference_of_invoke_ne_zero P _ _ s.in_bytes s.out_bytes s.in_scale s.in_zp
    s.out_scale s.out_zp (w.emit (.printf_teste_idx i (P.mnist_labels.getD i 0))) hin hout hrc]
  simp [World.emit]

/-- With an engine that always fails, the ten runs of `a` make their invokes and print
no report line. -/
lemma auto_foldl_of_invoke_ne_zero {ε : Type} (P : Platform ε) (s : MainState ε)
    (hin : 784 ≤ s.in_bytes) (hout : 10 ≤ s.out_bytes)
    (hrc : ∀ m, (P.tflm_invoke m).1 ≠ 0) (fuel : Nat) :
    ∀ (i : Nat) (w : World ε),
      report_lines ((List.range' i fuel).foldl (auto_iteration P s) w).trace
        = report_lines w.trace ∧
      invoke_count ((List.range' i fuel).foldl (auto_iteration P s) w).trace
        = invoke_count w.trace + fuel := by
  induction fuel with
  | zero =>
    intro i w
    exact ⟨rfl, rfl⟩
  | succ fuel ih =>
    intro i w
    rw [List.range'_succ, List.foldl_cons]
    obtain ⟨h1, h2⟩ := ih (i + 1) (auto_iteration P s w i)
    rw [h1, h2, auto_iteration_of_invoke_ne_zero P s w i hin hout (hrc _)]
    constructor
    · simp [report_lines, Effect.is_report_line]
    · simp [invoke_count_append, invoke_count]
      omega

/-- An iteration whose run fails a buffer check prints the error line only. -/
lemma auto_iteration_of_buffer_too_small {ε : Type} (P : Platform ε) (s : MainState ε)
    (w : World ε) (i : Nat) :
    (s.in_bytes < 784 →
      (auto_iteration P s w i).trace =
        w.trace ++
          [Effect.printf_teste_idx i (P.mnist_labels.getD i 0),
           Effect.printf "Erro: input menor que 784 bytes\n", Effect.sleep_ms 200]) ∧
    (784 ≤ s.in_bytes → s.out_bytes < 10 →
      (auto_iteration P s w i).trace =
        w.trace ++
          [Effect.printf_teste_idx i (P.mnist_labels.getD i 0),
           Effect.printf "Erro: output menor que 10 bytes\n", Effect.sleep_ms 200]) := by
  constructor
  · intro h
    unfold auto_iteration run_inference_on_image
    rw [if_pos (by omega)]
    simp [World.emit]
  · intro h1 h2
    unfold auto_iteration run_inference_on_image
    rw [if_neg (by omega), if_pos h2]
    simp [World.emit]

/-- C12 as stated fails when the runs fail: with an engine whose `tflm_invoke` returns
-3, the command `a` makes its ten invokes and prints no expected/predicted line and no
score line, so no run produces a report block. -/
theorem auto_report_blocks_counterexample :
    invoke_count (main_loop_body (stub_platform (-3)) (ord 'a') stub_state).world.trace = 10 ∧
    report_lines (main_loop_body (stub_platform (-3)) (ord 'a') stub_state).world.trace = [] := by
  have hbody := main_loop_body_auto (stub_platform (-3)) stub_state (ord 'a') (by decide)
    (Or.inl rfl)
  have hfold := auto_foldl_of_invoke_ne_zero (stub_platform (-3)) stub_state (by decide)
    (by decide) (fun _ => (by decide : (-3 : Int) ≠ 0)) 10 0
    (stub_state.world.emit (.printf "\nTeste automatico 0..9\n"))
  rw [hbody]
  simp only [cmd_auto, auto_loop_eq_foldl]
  rw [hfold.1, hfold.2]
  constructor <;> rfl

/-- C12 (amended): the command `a` (or `A`) performs exactly the ten iterations
`i = 0, 1, ..., 9` in this order, the `i`-th being the "Teste" line, the pipeline run on
`mnist_images[i]` with expected label `mnist_labels[i]`, and the 200 ms pause; an
iteration whose run passes the buffer checks and whose `tflm_invoke` returns 0 prints
its own report block (expected/predicted line and the ten score lines), and an iteration
whose run fails prints its single error line instead. -/
theorem cmd_auto_runs_ten {ε : Type} (P : Platform ε) (s : MainState ε) (ch : Int)
    (hne : ch ≠ P.PICO_ERROR_TIMEOUT) (hch : ch = ord 'a' ∨ ch = ord 'A') :
    (main_loop_body P ch s).world =
      [0, 1, 2, 3, 4, 5, 6, 7, 8, 9].foldl (auto_iteration P s)
        (s.world.emit (.printf "\nTeste automatico 0..9\n")) ∧
    (∀ (w : World ε) (i : Nat),
      auto_iteration P s w i =
        (run_inference_on_image P (P.mnist_images.getD i []) (P.mnist_labels.getD i 0)
          s.in_bytes s.out_bytes s.in_scale s.in_zp s.out_scale s.out_zp
          (w.emit (.printf_teste_idx i (P.mnist_labels.getD i 0)))).emit (.sleep_ms 200)) ∧
    (∀ (w : World ε) (i : Nat), 784 ≤ s.in_bytes → 10 ≤ s.out_bytes →
      (P.tflm_invoke (preprocess P.libm (P.mnist_images.getD i []) s.in_scale s.in_zp w.mem)).1 = 0 →
      (auto_iteration P s w i).trace =
        w.trace ++
          (Effect.printf_teste_idx i (P.mnist_labels.getD i 0) ::
            Effect.tflm_invoke
              (preprocess P.libm (P.mnist_images.getD i []) s.in_scale s.in_zp w.mem).input ::
            Effect.printf_label_esperado (P.mnist_labels.getD i 0)
              (argmax_i8 (P.tflm_invoke
                (preprocess P.libm (P.mnist_images.getD i []) s.in_scale s.in_zp w.mem)).2.output 10) ::
            (List.range 10).map (fun c : Nat =>
              Effect.printf_score c
                ((P.tflm_invoke (preprocess P.libm (P.mnist_images.getD i []) s.in_scale
                  s.in_zp w.mem)).2.output.getD c 0)
                (f32_round (f32_round
                  (((P.tflm_invoke (preprocess P.libm (P.mnist_images.getD i []) s.in_scale
                    s.in_zp w.mem)).2.output.getD c 0 - s.out_zp : Int) : ℚ) * s.out_scale))))
          ++ [Effect.sleep_ms 200]) ∧
    (∀ (w : World ε) (i : Nat), 784 ≤ s.in_bytes → 10 ≤ s.out_bytes →
      (P.tflm_invoke (preprocess P.libm (P.mnist_images.getD i []) s.in_scale s.in_zp w.mem)).1 ≠ 0 →
      (auto_iteration P s w i).trace =
        w.trace ++
          [Effect.printf_teste_idx i (P.mnist_labels.getD i 0),
           Effect.tflm_invoke
             (preprocess P.libm (P.mnist_images.getD i []) s.in_scale s.in_zp w.mem).input,
           Effect.printf_invoke_falhou (P.tflm_invoke
             (preprocess P.libm (P.mnist_images.getD i []) s.in_scale s.in_zp w.mem)).1,
           Effect.sleep_ms 200]) ∧
    (∀ (w : World ε) (i : Nat), s.in_bytes < 784 →
      (auto_iteration P s w i).trace =
        w.trace ++
          [Effect.printf_teste_idx i (P.mnist_labels.getD i 0),
           Effect.printf "Erro: input menor que 784 bytes\n", Effect.sleep_ms 200]) ∧
    (∀ (w : World ε) (i : Nat), 784 ≤ s.in_bytes → s.out_bytes < 10 →
      (auto_iteration P s w i).trace =
        w.trace ++
          [Effect.printf_teste_idx i (P.mnist_labels.getD i 0),
           Effect.printf "Erro: output menor que 10 bytes\n", Effect.sleep_ms 200]) := by
  refine ⟨?_, fun _ _ => rfl, ?_, ?_, ?_, ?_⟩
  · rw [main_loop_body_auto P s ch hne hch]
    simp only [cmd_auto, auto_loop_eq_foldl]
    rfl
  · intro w i hin hout hrc
    rw [auto_iteration_of_invoke_eq_zero P s w i hin hout hrc, score_loop_eq_map,
      ← List.range_eq_range']
  · intro w i hin hout hrc
    exact auto_iteration_of_invoke_ne_zero P s w i hin hout hrc
  · intro w i h
    exact (auto_iteration_of_buffer_too_small P s w i).1 h
  · intro w i h1 h2
    exact (auto_iteration_of_buffer_too_small P s w i).2 h1 h2

/-- Witness for C12 (amended): the byte `a` on the stub platform. -/
theorem cmd_auto_runs_ten_witness :
    (main_loop_body (stub_platform 0) (ord 'a') stub_state).world =
      [0, 1, 2, 3, 4, 5, 6, 7, 8, 9].foldl (auto_iteration (stub_platform 0) stub_state)
        (stub_state.world.emit (.printf "\nTeste automatico 0..9\n")) :=
  (cmd_auto_runs_ten (stub_platform 0) stub_state (ord 'a') (by decide) (Or.inl rfl)).1

/-! ## The command table -/

lemma cmd_help_eq_perform {ε : Type} (P : Platform ε) (s : MainState ε) :
    cmd_help s = perform P .help s :=
  rfl

lemma cmd_print_eq_perform {ε : Type} (P : Platform ε) (s : MainState ε) :
    cmd_print P s = perform P .render s := by
  simp only [cmd_print, perform, print_image_ascii, World.emit, print_rows_eq_flatten,
    rendering, ← List.range_eq_range', List.append_assoc, List.singleton_append]

lemma cmd_auto_eq_perform {ε : Type} (P : Platform ε) (s : MainState ε) :
    cmd_auto P s = perform P .run_all s := by
  simp only [cmd_auto, perform, auto_loop_eq_foldl]
  rfl

lemma cmd_digit_eq_perform {ε : Type} (P : Platform ε) (s : MainState ε) (d : Nat) :
    cmd_digit P (ord '0' + d) s = perform P (.select_run d) s := by
  have h : ord '0' + (d : Int) - ord '0' = (d : Int) := by omega
  simp only [cmd_digit, perform, run_sample, h, Int.toNat_ofNat]

lemma cmd_unknown_eq_perform {ε : Type} (P : Platform ε) (s : MainState ε) (b : Nat)
    (hb : b < 256) : cmd_unknown b s = perform P (.unknown b) s := by
  have h : ((b : Int) % 256) = b := by omega
  simp only [cmd_unknown, perform, h]

/-- On a byte, one iteration of the command loop performs the documented action. -/
lemma main_loop_body_eq_perform {ε : Type} (P : Platform ε) (s : MainState ε) (b : Nat)
    (hb : b < 256) (ht : P.PICO_ERROR_TIMEOUT < 0) :
    main_loop_body P b s = perform P (documented_action b) s := by
  have hne : (b : Int) ≠ P.PICO_ERROR_TIMEOUT := by omega
  obtain ⟨e1, e2, e3, e4, e5, e6, e7, e8, e9, e10⟩ := ord_values
  obtain ⟨t1, t2, t3, t4, t5⟩ := dispatch_table b hb
  by_cases h1 : (b : Int) = ord '\r' ∨ (b : Int) = ord '\n'
  · rw [t1.mpr h1]
    unfold main_loop_body
    rw [if_neg hne, if_pos h1]
    rfl
  by_cases h2 : (b : Int) = ord 'h' ∨ (b : Int) = ord 'H'
  · rw [t2.mpr h2, main_loop_body_help P s b hne h2]
    exact cmd_help_eq_perform P s
  by_cases h3 : (b : Int) = ord 'p' ∨ (b : Int) = ord 'P'
  · rw [t3.mpr h3, main_loop_body_print P s b hne h3]
    exact cmd_print_eq_perform P s
  by_cases h4 : (b : Int) = ord 'a' ∨ (b : Int) = ord 'A'
  · rw [t4.mpr h4, main_loop_body_auto P s b hne h4]
    exact cmd_auto_eq_perform P s
  by_cases h5 : (b : Int) ≥ ord '0' ∧ (b : Int) ≤ ord '9'
  · rw [t5.mpr h5, main_loop_body_digit P s b hne h5]
    have hbd : (b : Int) = ord '0' + ((b - 48 : Nat) : Int) := by omega
    rw [← cmd_digit_eq_perform P s (b - 48), ← hbd]
  · unfold main_loop_body
    rw [if_neg hne, if_neg h1, if_neg h2, if_neg h3, if_neg h4, if_neg h5]
    rcases documented_action_cases b with h | h | h | h | h | h
    · exact absurd (t1.mp h) h1
    · exact absurd (t2.mp h) h2
    · exact absurd (t3.mp h) h3
    · exact absurd (t4.mp h) h4
    · exact absurd (t5.mp h) h5
    · rw [h]
      exact cmd_unknown_eq_perform P s b hb

/-- C8: for every byte `b` in 0..255 one iteration of the command loop performs exactly
the documented action of `b`, each action written out as what it does to the state:
* CR and LF: nothing;
* `h`/`H`: the six lines of help text are printed;
* `p`/`P`: the heading with `current_idx` and its label, then the 28 lines of glyphs of
  `mnist_images[current_idx]`;
* `a`/`A`: for `i = 0..9` in order, the "Teste" line, the pipeline on sample `i`, the
  pause;
* digit `'0' + d`: the cursor becomes `d`, then the "Rodando" line and the pipeline on
  sample `d`;
* anything else: the unknown-command line echoing `b`.
Upper and lower case letters give the same state. -/
theorem main_loop_body_dispatch {ε : Type} (P : Platform ε) (s : MainState ε) (b : Nat)
    (hb : b < 256) (ht : P.PICO_ERROR_TIMEOUT < 0) :
    main_loop_body P b s = perform P (documented_action b) s ∧
    (((b : Int) = ord '\r' ∨ (b : Int) = ord '\n') → main_loop_body P b s = s) ∧
    (((b : Int) = ord 'h' ∨ (b : Int) = ord 'H') →
      main_loop_body P b s =
        { s with world := { s.world with trace := s.world.trace ++
            [Effect.printf "\nComandos:\n",
             Effect.printf "  h         -> ajuda\n",
             Effect.printf "  0..9      -> roda inferencia na imagem do digito escolhido\n",
             Effect.printf "  a         -> teste automatico (0..9)\n",
             Effect.printf "  p         -> imprime a imagem atual (ASCII)\n",
             Effect.printf "\n"] } }) ∧
    (((b : Int) = ord 'p' ∨ (b : Int) = ord 'P') →
      main_loop_body P b s =
        { s with world := { s.world with trace := s.world.trace ++
            (Effect.printf_imagem_atual s.current_idx
                (P.mnist_labels.getD s.current_idx.toNat 0) ::
              ((List.range 28).map (fun y : Nat =>
                (List.range 28).map (fun x : Nat =>
                    Effect.printf_c
                      (glyph ((P.mnist_images.getD s.current_idx.toNat []).getD (y * 28 + x) 0)))
                  ++ [Effect.printf "\n"])).flatten) } }) ∧
    (((b : Int) = ord 'a' ∨ (b : Int) = ord 'A') →
      main_loop_body P b s =
        { s with world :=
            ([0, 1, 2, 3, 4, 5, 6, 7, 8, 9].foldl
              (fun (w : World ε) (i : Nat) =>
                (run_inference_on_image P (P.mnist_images.getD i []) (P.mnist_labels.getD i 0)
                  s.in_bytes s.out_bytes s.in_scale s.in_zp s.out_scale s.out_zp
                  (w.emit (.printf_teste_idx i (P.mnist_labels.getD i 0)))).emit
                    (.sleep_ms 200))
              (s.world.emit (.printf "\nTeste automatico 0..9\n"))) }) ∧
    (∀ d : Nat, d ≤ 9 → (b : Int) = ord '0' + d →
      main_loop_body P b s =
        { s with
          current_idx := d,
          world :=
            (run_inference_on_image P (P.mnist_images.getD d []) (P.mnist_labels.getD d 0)
              s.in_bytes s.out_bytes s.in_scale s.in_zp s.out_scale s.out_zp
              (s.world.emit (.printf_rodando_idx d (P.mnist_labels.getD d 0)))) }) ∧
    (¬ ((b : Int) = ord '\r' ∨ (b : Int) = ord '\n' ∨ (b : Int) = ord 'h' ∨
          (b : Int) = ord 'H' ∨ (b : Int) = ord 'p' ∨ (b : Int) = ord 'P' ∨
          (b : Int) = ord 'a' ∨ (b : Int) = ord 'A' ∨
          ((b : Int) ≥ ord '0' ∧ (b : Int) ≤ ord '9')) →
      main_loop_body P b s =
        { s with world := s.world.emit (.printf_comando_desconhecido b) }) ∧
    main_loop_body P (ord 'h') s = main_loop_body P (ord 'H') s ∧
    main_loop_body P (ord 'p') s = main_loop_body P (ord 'P') s ∧
    main_loop_body P (ord 'a') s = main_loop_body P (ord 'A') s := by
  have hne : (b : Int) ≠ P.PICO_ERROR_TIMEOUT := by omega
  obtain ⟨e1, e2, e3, e4, e5, e6, e7, e8, e9, e10⟩ := ord_values
  refine ⟨main_loop_body_eq_perform P s b hb ht, ?_, ?_, ?_, ?_, ?_, ?_, ?_, ?_, ?_⟩
  · intro h
    unfold main_loop_body
    rw [if_neg hne, if_pos h]
  · intro h
    rw [main_loop_body_help P s b hne h]
    rfl
  · intro h
    rw [main_loop_body_print P s b hne h, cmd_print_eq_perform P s]
    rfl
  · intro h
    rw [main_loop_body_auto P s b hne h, cmd_auto_eq_perform P s]
    rfl
  · intro d _ h
    rw [main_loop_body_digit P s b hne (by omega), h, cmd_digit_eq_perform P s d]
    rfl
  · intro h
    unfold main_loop_body
    rw [if_neg hne, if_neg (by tauto), if_neg (by tauto), if_neg (by tauto),
      if_neg (by tauto), if_neg (by tauto)]
    simp only [cmd_unknown]
    have : ((b : Int) % 256) = b := by omega
    rw [this]
  · exact (main_loop_body_help P s _ (by omega) (Or.inl rfl)).trans
      (main_loop_body_help P s _ (by omega) (Or.inr rfl)).symm
  · exact (main_loop_body_print P s _ (by omega) (Or.inl rfl)).trans
      (main_loop_body_print P s _ (by omega) (Or.inr rfl)).symm
  · exact (main_loop_body_auto P s _ (by omega) (Or.inl rfl)).trans
      (main_loop_body_auto P s _ (by omega) (Or.inr rfl)).symm

/-- Witness for C8: the byte `'7'` (55) on the stub platform selects sample 7. -/
theorem main_loop_body_dispatch_witness :
    documented_action 55 = .select_run 7 ∧
    main_loop_body (stub_platform 0) (55 : Nat) stub_state =
      perform (stub_platform 0) (documented_action 55) stub_state :=
  ⟨by decide,
   (main_loop_body_dispatch (stub_platform 0) stub_state 55 (by decide) (by decide)).1⟩

end CnnMnist
















